import Mathlib

/-!
Verification of the Factur-X invoice generator core
(`facturx_generator.py` together with the form pipeline of `app.py`).

The development shallowly embeds the validator, the SIRET checksum, the
VAT-number derivation, the CII XML builder and the structural checker as
executable Lean functions, and proves (or refutes) the specified claims
about them.

Modelling conventions:
* text is `List Char` (`Str`);
* Python regex classes `\s` / `\d` are modelled over the ASCII alphabet;
* Python numbers are exact rationals (`ℚ`); the float-format `"%.2f"` is
  modelled as rounding to integer centimes;
* values that Python coerces with `float(...)` are modelled by `PyNum`
  (a float, a numeric string, or an unparseable value), so that the
  `except (ValueError, TypeError)` branches of the source are visible;
* a raised exception in a modelled function is `Option.none` / the
  `Except.error` case.
-/

/-- Text is modelled as a list of characters. -/
abbrev Str := List Char

/-- ASCII decimal digit (model of the regex class `\d` over ASCII input). -/
def isDigitC (c : Char) : Bool := decide (48 ≤ c.toNat) && decide (c.toNat ≤ 57)

/-- Numeric value of a digit character (`int(digit)` in the source). -/
def dval (c : Char) : ℕ := c.toNat - 48

/-- Model of the Python regex class `\s` over ASCII input. -/
def isSpaceC (c : Char) : Bool :=
  c = ' ' || c = '\t' || c = '\n' || c = '\r' || c = '\x0b' || c = '\x0c'

/-- `re.sub(r'[\s-]', '', siret)`: drop whitespace and hyphens. -/
def stripSpaceHyphen (s : Str) : Str := s.filter (fun c => !(isSpaceC c || c = '-'))

/-- One position of the source's checksum loop:
    `n = int(digit); if i % 2 == 1: n *= 2;  if n > 9: n = (n // 10) + (n % 10)`. -/
def luhnAdj (i d : ℕ) : ℕ :=
  if i % 2 = 1 then (if 2 * d > 9 then 2 * d / 10 + 2 * d % 10 else 2 * d) else d

/-- `FacturXGenerator._validate_siret`: strip whitespace/hyphens, require
    exactly 14 digits, then the position-doubling checksum. -/
def validate_siret (s : Str) : Bool :=
  let t := stripSpaceHyphen s
  if t.length = 14 && t.all isDigitC then
    decide ((t.enum.map (fun p => luhnAdj p.1 (dval p.2))).sum % 10 = 0)
  else false

/-- The claim's formulation of the checksum step: at odd positions double the
    digit and subtract 9 from a doubled value exceeding 9. -/
def claimAdj (i d : ℕ) : ℕ :=
  if i % 2 = 1 then (if 2 * d > 9 then 2 * d - 9 else 2 * d) else d

/-- The claim's checksum sum over zero-based digit positions. -/
def claimLuhnSum (t : Str) : ℕ :=
  (t.enum.map (fun p => claimAdj p.1 (dval p.2))).sum

theorem dval_le_nine {c : Char} (h : isDigitC c = true) : dval c ≤ 9 := by
  simp only [isDigitC, Bool.and_eq_true, decide_eq_true_eq] at h
  rcases h with ⟨h1, h2⟩
  simp only [dval]
  omega

theorem luhnAdj_eq_claimAdj {i d : ℕ} (hd : d ≤ 9) : luhnAdj i d = claimAdj i d := by
  simp only [luhnAdj, claimAdj]
  rcases Nat.decEq (i % 2) 1 with h | h
  · simp only [if_neg h]
  · simp only [if_pos h]
    rcases Nat.lt_or_ge 9 (2 * d) with h2 | h2
    · rw [if_pos h2, if_pos h2]
      omega
    · rw [if_neg (by omega), if_neg (by omega)]

/-- **C3.** `_validate_siret` returns `true` iff the whitespace/hyphen-stripped
    input is exactly 14 ASCII digits and the claim's checksum (double at odd
    zero-based positions, subtract 9 from doubled values exceeding 9) sums to a
    multiple of 10. -/
theorem siret_check_correct (s : Str) :
    validate_siret s = true ↔
      ((stripSpaceHyphen s).length = 14 ∧ (∀ c ∈ stripSpaceHyphen s, isDigitC c = true) ∧
        claimLuhnSum (stripSpaceHyphen s) % 10 = 0) := by
  unfold validate_siret claimLuhnSum
  by_cases hcond : (stripSpaceHyphen s).length = 14 ∧
      (∀ c ∈ stripSpaceHyphen s, isDigitC c = true)
  · have hb : ((stripSpaceHyphen s).length = 14 && (stripSpaceHyphen s).all isDigitC) = true := by
      simp only [Bool.and_eq_true, decide_eq_true_eq, List.all_eq_true]
      exact ⟨by simp [hcond.1], hcond.2⟩
    rw [if_pos hb]
    have hmap : (stripSpaceHyphen s).enum.map (fun p => luhnAdj p.1 (dval p.2))
        = (stripSpaceHyphen s).enum.map (fun p => claimAdj p.1 (dval p.2)) := by
      apply List.map_congr_left
      intro p hp
      exact luhnAdj_eq_claimAdj (dval_le_nine (hcond.2 _ (List.snd_mem_of_mem_enum hp)))
    rw [hmap]
    simp only [decide_eq_true_eq]
    constructor
    · intro h; exact ⟨hcond.1, hcond.2, h⟩
    · intro h; exact h.2.2
  · have hb : ((stripSpaceHyphen s).length = 14 && (stripSpaceHyphen s).all isDigitC) = false := by
      rw [Bool.and_eq_false_iff]
      by_cases h14 : (stripSpaceHyphen s).length = 14
      · right
        have h : ¬ (∀ c ∈ stripSpaceHyphen s, isDigitC c = true) := by tauto
        rw [← List.all_eq_true] at h
        exact eq_false_of_ne_true h
      · left; simp [h14]
    rw [if_neg (by simp [hb])]
    constructor
    · intro h; exact absurd h (by simp)
    · intro h; exact absurd ⟨h.1, h.2.1⟩ hcond

/-- A Python value that the source hands to `float(...)`: an actual number
    (int/float), a string that parses as a number, or a value on which
    `float(...)` raises `ValueError`/`TypeError`. -/
inductive PyNum where
  | num (q : ℚ)
  | strNum (q : ℚ)
  | bad
deriving DecidableEq

/-- `float(x)`: `none` models a raised `ValueError`/`TypeError`. -/
def pyFloat : PyNum → Option ℚ
  | .num q => some q
  | .strNum q => some q
  | .bad => none

/-- Rounded integer centimes of a rational: `⌊100·q + 1/2⌋`, computed with
    integer euclidean division (the model of the value printed by `"%.2f"`). -/
def cents (q : ℚ) : ℤ := (200 * q.num + (q.den : ℤ)) / (2 * (q.den : ℤ))

theorem cents_eq_round (q : ℚ) : cents q = round (100 * q) := by
  have hd : ((q.den : ℚ)) ≠ 0 := Nat.cast_ne_zero.mpr q.den_pos.ne'
  have key : 100 * q + 1 / 2 = (((200 * q.num + (q.den : ℤ)) : ℤ) : ℚ) / (((2 * q.den : ℕ)) : ℚ) := by
    conv_lhs => rw [← Rat.num_div_den q]
    push_cast
    field_simp
    ring
  rw [round_eq, key, Rat.floor_intCast_div_natCast, cents]
  norm_cast

/-- Little-endian base-10 digits of a natural number (with structural fuel). -/
def natDigitsF : ℕ → ℕ → List ℕ
  | 0, _ => []
  | _ + 1, 0 => []
  | f + 1, m + 1 => (m + 1) % 10 :: natDigitsF f ((m + 1) / 10)

/-- Little-endian base-10 digits. -/
def natDigits (n : ℕ) : List ℕ := natDigitsF n n

/-- The character of a decimal digit. -/
def digitCh (d : ℕ) : Char := Char.ofNat (48 + d)

/-- Decimal rendering of a natural number. -/
def natStr (n : ℕ) : Str := if n = 0 then ['0'] else (natDigits n).reverse.map digitCh

/-- Value of a little-endian digit list. -/
def ofDigitsLE : List ℕ → ℕ
  | [] => 0
  | d :: ds => d + 10 * ofDigitsLE ds

/-- Value of a big-endian digit string. -/
def natOfStr (s : Str) : ℕ := s.foldl (fun a c => 10 * a + dval c) 0

/-- Exactly two decimal digits (for the fractional part of `"%.2f"`). -/
def twoDig (m : ℕ) : Str := [digitCh (m / 10), digitCh (m % 10)]

/-- Decimal rendering of a signed amount of centimes, in the shape produced by
    Python's `"%.2f"` formatting: optional minus sign, integer part, `'.'`,
    exactly two fractional digits. -/
def centsToStr (z : ℤ) : Str :=
  (if z < 0 then ['-'] else []) ++ natStr (z.natAbs / 100) ++ '.' :: twoDig (z.natAbs % 100)

/-- Model of `f"{q:.2f}"` on an exact rational. -/
def fmt2 (q : ℚ) : Str := centsToStr (cents q)

/-- Model of `f"{x:.2f}"` on a Python value: formatting succeeds only on an
    actual number (formatting a string with a float spec raises). -/
def pyFmt2 : PyNum → Option Str
  | .num q => some (fmt2 q)
  | .strNum _ => none
  | .bad => none

/-- Parse back an unsigned 2-decimal rendering into centimes. -/
def parseCentsNat (r : Str) : Option ℕ :=
  let ip := r.takeWhile (fun c => c != '.')
  match r.dropWhile (fun c => c != '.') with
  | '.' :: fr =>
      if ip ≠ [] ∧ ip.all isDigitC ∧ fr.length = 2 ∧ fr.all isDigitC then
        some (100 * natOfStr ip + natOfStr fr)
      else none
  | _ => none

/-- Parse back a signed 2-decimal rendering into centimes. -/
def parseCents (s : Str) : Option ℤ :=
  if s.head? = some '-' then (parseCentsNat s.tail).map (fun n => -(n : ℤ))
  else (parseCentsNat s).map (fun n => (n : ℤ))

theorem mem_natDigitsF_lt {f n d : ℕ} (h : d ∈ natDigitsF f n) : d < 10 := by
  induction f generalizing n with
  | zero => simp [natDigitsF] at h
  | succ f ih =>
    rcases n with _ | m
    · simp [natDigitsF] at h
    · rw [natDigitsF] at h
      rcases List.mem_cons.mp h with h | h
      · omega
      · exact ih h

theorem ofDigitsLE_natDigitsF {f n : ℕ} (h : n ≤ f) : ofDigitsLE (natDigitsF f n) = n := by
  induction f generalizing n with
  | zero =>
    rcases Nat.le_zero.mp h
    simp [natDigitsF, ofDigitsLE]
  | succ f ih =>
    rcases n with _ | m
    · simp [natDigitsF, ofDigitsLE]
    · rw [natDigitsF, ofDigitsLE, ih (by omega)]
      omega

theorem digitCh_spec {d : ℕ} (h : d < 10) :
    dval (digitCh d) = d ∧ isDigitC (digitCh d) = true := by
  interval_cases d <;> exact ⟨rfl, rfl⟩

theorem foldl_digit_chars (ds : List ℕ) :
    ∀ acc : ℕ, (∀ d ∈ ds, d < 10) →
      List.foldl (fun a c => 10 * a + dval c) acc ((ds.reverse).map digitCh)
        = acc * 10 ^ ds.length + ofDigitsLE ds := by
  induction ds with
  | nil => intro acc _; simp [ofDigitsLE]
  | cons d ds ih =>
    intro acc h
    have hd : d < 10 := h d (by simp)
    simp only [List.reverse_cons, List.map_append, List.foldl_append, List.map_cons,
      List.foldl_cons, List.map_nil, List.foldl_nil]
    rw [ih acc (fun x hx => h x (List.mem_cons_of_mem _ hx))]
    rw [(digitCh_spec hd).1, ofDigitsLE, List.length_cons]
    ring

theorem takeWhile_append_cons {α : Type} {p : α → Bool} (l : List α) (c : α) (r : List α)
    (hl : ∀ x ∈ l, p x = true) (hc : p c = false) :
    (l ++ c :: r).takeWhile p = l ∧ (l ++ c :: r).dropWhile p = c :: r := by
  induction l with
  | nil => simp [List.takeWhile_cons, List.dropWhile_cons, hc]
  | cons a l ih =>
    have ha : p a = true := hl a (by simp)
    have := ih (fun x hx => hl x (List.mem_cons_of_mem _ hx))
    simp only [List.cons_append, List.takeWhile_cons, List.dropWhile_cons, ha]
    refine ⟨?_, ?_⟩ <;> simp [this.1, this.2]

theorem natStr_ne_nil (n : ℕ) : natStr n ≠ [] := by
  by_cases h : n = 0
  · simp [natStr, h]
  · simp only [natStr, if_neg h]
    intro hcon
    have h1 : (natDigits n).reverse.map digitCh = [] := hcon
    have h2 : natDigits n = [] := by
      have := List.map_eq_nil_iff.mp h1
      simpa using this
    have h3 : ofDigitsLE (natDigits n) = n := ofDigitsLE_natDigitsF (le_refl n)
    rw [h2] at h3
    simp [ofDigitsLE] at h3
    exact h (h3.symm)

theorem natStr_all_digit (n : ℕ) : ∀ c ∈ natStr n, isDigitC c = true := by
  intro c hc
  by_cases h : n = 0
  · simp [natStr, h] at hc
    rw [hc]; rfl
  · simp only [natStr, if_neg h, List.mem_map, List.mem_reverse] at hc
    obtain ⟨d, hd, rfl⟩ := hc
    exact (digitCh_spec (mem_natDigitsF_lt hd)).2

theorem natOfStr_natStr (n : ℕ) : natOfStr (natStr n) = n := by
  by_cases h : n = 0
  · simp [natStr, h, natOfStr, List.foldl]
    rfl
  · simp only [natStr, if_neg h, natOfStr]
    rw [foldl_digit_chars (natDigits n) 0 (fun d hd => mem_natDigitsF_lt hd)]
    simp only [natDigits]
    rw [ofDigitsLE_natDigitsF (le_refl n)]
    simp

theorem twoDig_spec {m : ℕ} (h : m < 100) :
    (∀ c ∈ twoDig m, isDigitC c = true) ∧ (twoDig m).length = 2 ∧ natOfStr (twoDig m) = m := by
  have h1 : m / 10 < 10 := by omega
  have h2 : m % 10 < 10 := by omega
  refine ⟨?_, rfl, ?_⟩
  · intro c hc
    simp only [twoDig, List.mem_cons, List.not_mem_nil, or_false] at hc
    rcases hc with rfl | rfl
    · exact (digitCh_spec h1).2
    · exact (digitCh_spec h2).2
  · show List.foldl _ 0 _ = m
    simp only [twoDig, List.foldl_cons, List.foldl_nil]
    rw [(digitCh_spec h1).1, (digitCh_spec h2).1]
    omega

theorem digit_ne_dot_dash {c : Char} (h : isDigitC c = true) : c ≠ '.' ∧ c ≠ '-' := by
  simp only [isDigitC, Bool.and_eq_true, decide_eq_true_eq] at h
  constructor
  · intro hc; rw [hc] at h; simp at h
  · intro hc; rw [hc] at h; simp at h

theorem parseCentsNat_render {a b : ℕ} (hb : b < 100) :
    parseCentsNat (natStr a ++ '.' :: twoDig b) = some (100 * a + b) := by
  have hdig := natStr_all_digit a
  have hsplit := takeWhile_append_cons (p := fun c => c != '.') (natStr a) '.' (twoDig b)
    (fun x hx => by
      have := (digit_ne_dot_dash (hdig x hx)).1
      simpa using this)
    (by simp)
  rw [parseCentsNat]
  simp only [hsplit.1, hsplit.2]
  rw [if_pos ⟨natStr_ne_nil a, by
    rw [List.all_eq_true]; exact hdig, (twoDig_spec hb).2.1, by
    rw [List.all_eq_true]; exact (twoDig_spec hb).1⟩]
  rw [natOfStr_natStr, (twoDig_spec hb).2.2]

theorem parseCents_centsToStr (z : ℤ) : parseCents (centsToStr z) = some z := by
  have hb : z.natAbs % 100 < 100 := Nat.mod_lt _ (by omega)
  by_cases hz : z < 0
  · rw [centsToStr, if_pos hz, parseCents]
    have hshape : ((['-'] : Str) ++ natStr (z.natAbs / 100) ++ '.' :: twoDig (z.natAbs % 100))
        = '-' :: (natStr (z.natAbs / 100) ++ '.' :: twoDig (z.natAbs % 100)) := rfl
    rw [hshape]
    rw [if_pos (by rw [List.head?_cons])]
    rw [List.tail_cons, parseCentsNat_render hb]
    have hval : 100 * (z.natAbs / 100) + z.natAbs % 100 = z.natAbs := by omega
    rw [hval]
    show some (-(z.natAbs : ℤ)) = some z
    congr 1
    omega
  · rw [centsToStr, if_neg hz, parseCents]
    obtain ⟨c, cs, hcons⟩ : ∃ c cs, natStr (z.natAbs / 100) = c :: cs := by
      rcases hn : natStr (z.natAbs / 100) with _ | ⟨c, cs⟩
      · exact absurd hn (natStr_ne_nil _)
      · exact ⟨c, cs, rfl⟩
    have hcd : isDigitC c = true := by
      apply natStr_all_digit
      rw [hcons]; simp
    rw [List.nil_append, hcons]
    rw [if_neg (by
      rw [List.cons_append, List.head?_cons]
      intro hcon
      have : c = '-' := by simpa using hcon
      exact (digit_ne_dot_dash hcd).2 this)]
    rw [← hcons, parseCentsNat_render hb]
    have hval : 100 * (z.natAbs / 100) + z.natAbs % 100 = z.natAbs := by omega
    rw [hval]
    show some ((z.natAbs : ℤ)) = some z
    congr 1
    omega

theorem round_add_close (a b : ℚ) : |round (a + b) - round a - round b| ≤ 1 := by
  have h1 := abs_sub_round (a + b)
  have h2 := abs_sub_round a
  have h3 := abs_sub_round b
  have key : |((round (a + b) - round a - round b : ℤ) : ℚ)| ≤ 3 / 2 := by
    have hid : ((round (a + b) - round a - round b : ℤ) : ℚ)
        = (↑(round (a + b)) - (a + b)) - (↑(round a) - a) - (↑(round b) - b) := by
      push_cast
      ring
    rw [hid, abs_le]
    have b1 := abs_le.mp h1
    have b2 := abs_le.mp h2
    have b3 := abs_le.mp h3
    constructor <;> linarith
  have key2 : ((|round (a + b) - round a - round b| : ℤ) : ℚ) < 2 := by
    rw [Int.cast_abs]
    exact key.trans_lt (by norm_num)
  have : |round (a + b) - round a - round b| < 2 := by exact_mod_cast key2
  omega

theorem cents_add_close (a b : ℚ) : |cents (a + b) - cents a - cents b| ≤ 1 := by
  rw [cents_eq_round, cents_eq_round, cents_eq_round]
  have h : (100 : ℚ) * (a + b) = 100 * a + 100 * b := by ring
  rw [h]
  exact round_add_close (100 * a) (100 * b)

/-- String literal → `Str`. -/
def strL (s : String) : Str := s.toList

/-- Truthiness of a Python string (`if not s: ...`). -/
def strTruthy (s : Str) : Bool := !s.isEmpty

/-- A party dictionary (`issuer`/`recipient`). The four address fields are
    modelled as present (the form always supplies them); `siret` and
    `vat_number` model presence/absence of the dictionary key, since the
    source distinguishes these via `.get` with defaults. -/
structure Party where
  name : Str
  address : Str
  postal_code : Str
  city : Str
  siret : Option Str
  vat_number : Option Str
deriving DecidableEq

/-- One line-item dictionary. `quantity`/`unit_price`/`vat_rate` are read by
    the source with `.get`/`float(...)`, hence `Option PyNum`; the derived
    amounts are produced by the form pipeline as numbers. -/
structure Item where
  description : Str
  quantity : Option PyNum
  unit_price : Option PyNum
  vat_rate : Option PyNum
  amount_ht : ℚ
  vat_amount : ℚ
  amount_ttc : ℚ
deriving DecidableEq

/-- The invoice dictionary handed to the generator. -/
structure InvoiceData where
  date : Str
  invoice_number : Str
  issuer : Party
  recipient : Party
  items : List Item
  total_ht : ℚ
  total_vat : ℚ
  total_ttc : PyNum
deriving DecidableEq

/-- Gregorian leap year (as in `datetime`). -/
def isLeapYear (y : ℕ) : Bool :=
  (decide (y % 4 = 0) && !decide (y % 100 = 0)) || decide (y % 400 = 0)

/-- Days in a month of the real calendar. -/
def daysInMonth (y m : ℕ) : ℕ :=
  if m = 2 then (if isLeapYear y then 29 else 28)
  else if m = 4 ∨ m = 6 ∨ m = 9 ∨ m = 11 then 30 else 31

/-- Split a string at `'-'` separators. -/
def splitDash : Str → List Str
  | [] => [[]]
  | c :: rest =>
    if c = '-' then [] :: splitDash rest
    else
      match splitDash rest with
      | [] => [[c]]
      | h :: t => (c :: h) :: t

/-- Model of `datetime.strptime(s, '%Y-%m-%d')` succeeding: three dash-separated
    digit groups (year exactly 4 digits, month/day 1–2 digits) forming a real
    calendar date. -/
def pyParseDate (s : Str) : Bool :=
  match splitDash s with
  | [ys, ms, ds] =>
    if ys.length = 4 && ys.all isDigitC
        && (ms.length = 1 || ms.length = 2) && ms.all isDigitC
        && (ds.length = 1 || ds.length = 2) && ds.all isDigitC then
      let y := natOfStr ys
      let m := natOfStr ms
      let d := natOfStr ds
      decide (1 ≤ y) && decide (1 ≤ m) && decide (m ≤ 12) && decide (1 ≤ d)
        && decide (d ≤ daysInMonth y m)
    else false
  | _ => false

/-- Required-field block of the validator (date, invoice number), in source
    order. -/
def ruleRequired (d : InvoiceData) : List Str :=
  (if strTruthy d.date then [] else [strL "Date de facturation est obligatoire"]) ++
  (if strTruthy d.invoice_number then [] else [strL "Numéro de facture est obligatoire"])

/-- Date-format block: only checked when a date is present. -/
def ruleDate (d : InvoiceData) : List Str :=
  if strTruthy d.date && !pyParseDate d.date then
    [strL "Format de date invalide (YYYY-MM-DD attendu)"]
  else []

/-- Per-party required-field block (`Émetteur - {field} est obligatoire`). -/
def partyFieldErrors (label : String) (p : Party) : List Str :=
  (if strTruthy p.name then [] else [strL (label ++ " - name est obligatoire")]) ++
  (if strTruthy p.address then [] else [strL (label ++ " - address est obligatoire")]) ++
  (if strTruthy p.postal_code then [] else [strL (label ++ " - postal_code est obligatoire")]) ++
  (if strTruthy p.city then [] else [strL (label ++ " - city est obligatoire")])

/-- SIRET block for one party: only a provided, truthy SIRET is checked. -/
def siretErrorFor (label : String) (p : Party) : List Str :=
  match p.siret with
  | none => []
  | some s =>
    if strTruthy s && !validate_siret s then [strL (label ++ " - Format SIRET invalide")]
    else []

/-- Per-item block of the validator; `i` is the 1-based item number used in
    the messages. -/
def itemErrors (i : ℕ) (it : Item) : List Str :=
  (if strTruthy it.description then [] else
    [strL "Article " ++ natStr i ++ strL " - Description obligatoire"]) ++
  (match pyFloat (it.quantity.getD (.num 0)) with
   | none => [strL "Article " ++ natStr i ++ strL " - Quantité invalide"]
   | some q => if q ≤ 0 then
      [strL "Article " ++ natStr i ++ strL " - Quantité doit être supérieure à 0"] else []) ++
  (match pyFloat (it.unit_price.getD (.num 0)) with
   | none => [strL "Article " ++ natStr i ++ strL " - Prix unitaire invalide"]
   | some p => if p < 0 then
      [strL "Article " ++ natStr i ++ strL " - Prix unitaire invalide"] else []) ++
  (match pyFloat (it.vat_rate.getD (.num 0)) with
   | none => [strL "Article " ++ natStr i ++ strL " - Taux de TVA invalide"]
   | some v => if v < 0 ∨ v > 100 then
      [strL "Article " ++ natStr i ++ strL " - Taux de TVA invalide (0-100%)"] else [])

/-- Items block: either the at-least-one-item violation, or the per-item
    blocks in order. -/
def ruleItems (d : InvoiceData) : List Str :=
  if d.items.isEmpty then [strL "Au moins un article est obligatoire"]
  else (d.items.enum.map (fun p => itemErrors (p.1 + 1) p.2)).flatten

/-- Totals block: `float(data.get('total_ttc', 0))` must be positive. -/
def ruleTotal (d : InvoiceData) : List Str :=
  match pyFloat d.total_ttc with
  | none => [strL "Montant total invalide"]
  | some t => if t ≤ 0 then [strL "Le montant total doit être supérieur à 0"] else []

/-- The full ordered list of violation messages collected by
    `validate_invoice_data` (the source appends to `errors` in exactly this
    block order). -/
def validationErrors (d : InvoiceData) : List Str :=
  ruleRequired d ++ ruleDate d ++
  partyFieldErrors "Émetteur" d.issuer ++ partyFieldErrors "Destinataire" d.recipient ++
  siretErrorFor "Issuer" d.issuer ++ siretErrorFor "Recipient" d.recipient ++
  ruleItems d ++ ruleTotal d

/-- The single `ValidationError` message carrying every collected violation,
    in order (`"Erreurs de validation:\n" + "\n".join(f"- {e}")`). -/
def validationMessage (errs : List Str) : Str :=
  strL "Erreurs de validation:\n" ++ List.intercalate (strL "\n") (errs.map (fun e => strL "- " ++ e))

/-- `validate_invoice_data`: raises (models as `Except.error`) the aggregated
    `ValidationError` when at least one violation was collected, otherwise
    returns `True`. -/
def validate_invoice_data (d : InvoiceData) : Except Str Bool :=
  if (validationErrors d).isEmpty then .ok true
  else .error (validationMessage (validationErrors d))

/-- One line of the invoice form (`description[]`, `quantity[]`,
    `unit_price[]`, `vat_rate[]` are parallel lists); the numeric entries are
    the rationals `float(...)` produces on them. -/
structure FormRow where
  description : Str
  quantity : ℚ
  unit_price : ℚ
  vat_rate : ℚ

/-- The form submission handled by `generate_invoice` in app.py. -/
structure FormData where
  date : Str
  invoice_number : Str
  issuer_name : Str
  issuer_address : Str
  issuer_postal : Str
  issuer_city : Str
  issuer_siret : Str
  issuer_vat : Str
  recipient_name : Str
  recipient_address : Str
  recipient_postal : Str
  recipient_city : Str
  recipient_siret : Str
  recipient_vat : Str
  rows : List FormRow

/-- app.py: a kept row becomes an item with `amount_ht = quantity*unit_price`,
    `vat_amount = amount_ht*(vat_rate/100)`, `amount_ttc = amount_ht+vat_amount`. -/
def rowToItem (r : FormRow) : Item :=
  { description := r.description
    quantity := some (.num r.quantity)
    unit_price := some (.num r.unit_price)
    vat_rate := some (.num r.vat_rate)
    amount_ht := r.quantity * r.unit_price
    vat_amount := r.quantity * r.unit_price * (r.vat_rate / 100)
    amount_ttc := r.quantity * r.unit_price + r.quantity * r.unit_price * (r.vat_rate / 100) }

/-- `generate_invoice` (app.py): rows with an empty description are dropped
    before anything else, remaining rows become items, and the three totals
    are the sums of the corresponding per-item derived fields. -/
def buildInvoiceData (f : FormData) : InvoiceData :=
  let items := (f.rows.filter (fun r => strTruthy r.description)).map rowToItem
  { date := f.date
    invoice_number := f.invoice_number
    issuer := { name := f.issuer_name, address := f.issuer_address,
                postal_code := f.issuer_postal, city := f.issuer_city,
                siret := some f.issuer_siret, vat_number := some f.issuer_vat }
    recipient := { name := f.recipient_name, address := f.recipient_address,
                   postal_code := f.recipient_postal, city := f.recipient_city,
                   siret := some f.recipient_siret, vat_number := some f.recipient_vat }
    items := items
    total_ht := (items.map Item.amount_ht).sum
    total_vat := (items.map Item.vat_amount).sum
    total_ttc := .num ((items.map Item.amount_ttc).sum) }

/-- A record the validator accepts although its three totals are mutually
    inconsistent (the validator never compares them). -/
def cexTotalsData : InvoiceData :=
  { date := strL "2024-01-15"
    invoice_number := strL "F-2024-001"
    issuer := { name := strL "ACME", address := strL "1 rue A", postal_code := strL "75001",
                city := strL "Paris", siret := none, vat_number := none }
    recipient := { name := strL "Client", address := strL "2 rue B", postal_code := strL "69001",
                   city := strL "Lyon", siret := none, vat_number := none }
    items := [{ description := strL "Prestation"
                quantity := some (.num 1), unit_price := some (.num 10),
                vat_rate := some (.num 20)
                amount_ht := 10, vat_amount := 2, amount_ttc := 12 }]
    total_ht := 0
    total_vat := 0
    total_ttc := .num 100 }

/-- **C1, counterexample.** The validator accepts `cexTotalsData` although its
    `total_ttc` (100) differs from `total_ht + total_vat` (0) by far more than
    the 2-decimal rounding tolerance: acceptance does not imply the totals
    identity. -/
theorem totals_invariant_cex :
    validate_invoice_data cexTotalsData = Except.ok true ∧
    pyFloat cexTotalsData.total_ttc = some 100 ∧
    cexTotalsData.total_ht = 0 ∧ cexTotalsData.total_vat = 0 ∧
    ¬ (|(100 : ℚ) - (0 + 0)| ≤ 1 / 100) := by
  refine ⟨rfl, rfl, rfl, rfl, by norm_num⟩

/-- **C1, amended.** The validator does not enforce the totals identity; the
    identity instead holds (exactly) for every record assembled by the form
    pipeline, whose totals are sums of the per-item derived fields. -/
theorem totals_identity_of_pipeline (f : FormData) :
    (buildInvoiceData f).total_ttc
      = PyNum.num ((buildInvoiceData f).total_ht + (buildInvoiceData f).total_vat) := by
  show PyNum.num _ = PyNum.num _
  congr 1
  simp only [buildInvoiceData, List.map_map]
  exact List.sum_map_add

/-- **C4.** Validation never fails fast: the collected violation list is the
    ordered concatenation of every rule block, one aggregated error carrying
    all messages is raised iff at least one rule is violated, and otherwise
    the record is accepted. -/
theorem validation_aggregates (d : InvoiceData) :
    (validationErrors d
        = ruleRequired d ++ ruleDate d ++ partyFieldErrors "Émetteur" d.issuer
          ++ partyFieldErrors "Destinataire" d.recipient ++ siretErrorFor "Issuer" d.issuer
          ++ siretErrorFor "Recipient" d.recipient ++ ruleItems d ++ ruleTotal d) ∧
    (validate_invoice_data d = Except.error (validationMessage (validationErrors d))
        ↔ validationErrors d ≠ []) ∧
    (validate_invoice_data d = Except.ok true ↔ validationErrors d = []) := by
  refine ⟨rfl, ?_, ?_⟩
  · by_cases h : validationErrors d = []
    · simp [validate_invoice_data, h]
    · simp [validate_invoice_data, List.isEmpty_iff, h]
  · by_cases h : validationErrors d = []
    · simp [validate_invoice_data, h]
    · simp [validate_invoice_data, List.isEmpty_iff, h]

/-- A form submission that is valid in every field except that its only line
    item has an empty description. -/
def cexEmptyRowsForm : FormData :=
  { date := strL "2024-01-15", invoice_number := strL "F-1",
    issuer_name := strL "ACME", issuer_address := strL "1 rue A",
    issuer_postal := strL "75001", issuer_city := strL "Paris",
    issuer_siret := [], issuer_vat := [],
    recipient_name := strL "Client", recipient_address := strL "2 rue B",
    recipient_postal := strL "69001", recipient_city := strL "Lyon",
    recipient_siret := [], recipient_vat := [],
    rows := [{ description := [], quantity := 1, unit_price := 10, vat_rate := 20 }] }

/-- **C5, counterexample.** A submission whose only item has an empty
    description (all other fields valid) is rejected with *two* violations —
    the at-least-one-item message and the positive-total message — not with
    exactly the single at-least-one-item violation. -/
theorem empty_desc_single_violation_cex :
    validationErrors (buildInvoiceData cexEmptyRowsForm)
      = [strL "Au moins un article est obligatoire",
         strL "Le montant total doit être supérieur à 0"] ∧
    validationErrors (buildInvoiceData cexEmptyRowsForm)
      ≠ [strL "Au moins un article est obligatoire"] := by
  constructor
  · with_unfolding_all rfl
  · intro h
    have h2 : (validationErrors (buildInvoiceData cexEmptyRowsForm)).length = 1 := by
      rw [h]; rfl
    have h1 : (validationErrors (buildInvoiceData cexEmptyRowsForm)).length = 2 := by
      with_unfolding_all rfl
    rw [h1] at h2
    exact absurd h2 (by norm_num)

/-- **C5, amended.** If every supplied line item has an empty description and
    every other field of the submission is valid, validation yields exactly
    two violations, in order: the at-least-one-item message and the
    positive-total message (the computed `total_ttc` of an itemless record is
    0); no per-item description error is emitted. -/
theorem empty_desc_two_violations (f : FormData)
    (hdate : strTruthy f.date = true) (hfmt : pyParseDate f.date = true)
    (hnum : strTruthy f.invoice_number = true)
    (hin : strTruthy f.issuer_name = true) (hia : strTruthy f.issuer_address = true)
    (hip : strTruthy f.issuer_postal = true) (hic : strTruthy f.issuer_city = true)
    (hrn : strTruthy f.recipient_name = true) (hra : strTruthy f.recipient_address = true)
    (hrp : strTruthy f.recipient_postal = true) (hrc : strTruthy f.recipient_city = true)
    (hisir : strTruthy f.issuer_siret = false ∨ validate_siret f.issuer_siret = true)
    (hrsir : strTruthy f.recipient_siret = false ∨ validate_siret f.recipient_siret = true)
    (hrows : ∀ r ∈ f.rows, strTruthy r.description = false) :
    validationErrors (buildInvoiceData f)
      = [strL "Au moins un article est obligatoire",
         strL "Le montant total doit être supérieur à 0"] := by
  have hitems : f.rows.filter (fun r => strTruthy r.description) = [] :=
    List.filter_eq_nil_iff.mpr (fun r hr => by simp [hrows r hr])
  have hsir1 : siretErrorFor "Issuer" (buildInvoiceData f).issuer = [] := by
    rcases hisir with h | h <;> simp [siretErrorFor, buildInvoiceData, h]
  have hsir2 : siretErrorFor "Recipient" (buildInvoiceData f).recipient = [] := by
    rcases hrsir with h | h <;> simp [siretErrorFor, buildInvoiceData, h]
  simp only [validationErrors, ruleRequired, ruleDate, partyFieldErrors, ruleItems, ruleTotal,
    buildInvoiceData, hitems, List.map_nil] at hsir1 hsir2 ⊢
  simp [hdate, hfmt, hnum, hin, hia, hip, hic, hrn, hra, hrp, hrc, hsir1, hsir2,
    pyFloat, List.sum_nil]

/-- Witness for the amended C5 theorem at a concrete submission. -/
theorem empty_desc_two_violations_witness :
    validationErrors (buildInvoiceData cexEmptyRowsForm)
      = [strL "Au moins un article est obligatoire",
         strL "Le montant total doit être supérieur à 0"] :=
  empty_desc_two_violations cexEmptyRowsForm rfl rfl rfl rfl rfl rfl rfl rfl rfl rfl rfl
    (Or.inl rfl) (Or.inl rfl) (by decide)

/-- `int(s)` on a candidate digit string: the value when `s` is a non-empty
    all-digit string, `none` (a raised `ValueError`) otherwise. (Surrounding
    whitespace and signs, which `int` would tolerate, are not modelled; the
    source only applies this to slices of a SIRET.) -/
def pyIntNat (s : Str) : Option ℕ :=
  if !s.isEmpty && s.all isDigitC then some (natOfStr s) else none

/-- Python `f"{k:02d}"` for a non-negative value: pad to two digits. -/
def pad2 (k : ℕ) : Str := if k < 10 then '0' :: natStr k else natStr k

/-- Lines 374–389 of `_generate_facturx_xml`: the seller VAT number. The
    explicit `vat_number` wins when truthy; otherwise the SIRET (placeholder
    `"00000000000000"` when the key is absent) is stripped of *space
    characters only*, and when at least 9 characters remain the first 9 are
    parsed with `int(...)` to compute the French VAT key — `none` models the
    `ValueError` when they are not all digits; with fewer than 9 characters
    the fallback is `"FR00" + siret_clean`. -/
def sellerVatNumber (p : Party) : Option Str :=
  let siret := p.siret.getD (strL "00000000000000")
  let vat := p.vat_number.getD []
  if strTruthy vat then some vat
  else
    let siret_clean := siret.filter (fun c => c != ' ')
    if 9 ≤ siret_clean.length then
      match pyIntNat (siret_clean.take 9) with
      | none => none
      | some n => some (strL "FR" ++ pad2 ((12 + 3 * (n % 97)) % 97) ++ siret_clean.take 9)
    else some (strL "FR00" ++ siret_clean)

/-- The claim's (and spec §4.3's) derivation rule: on the whitespace- and
    hyphen-stripped SIRET, SIREN = first 9 digits,
    key = (12 + 3·(SIREN mod 97)) mod 97 zero-padded to two digits, result
    `"FR" + key + SIREN`. -/
def claimVatDerive (siret : Str) : Str :=
  let siren := (stripSpaceHyphen siret).take 9
  strL "FR" ++ pad2 ((12 + 3 * (natOfStr siren % 97)) % 97) ++ siren

/-- An XML element as built through the lxml `etree` API: qualified tag name
    (rendered with its serialization prefix), attributes, optional text,
    children. -/
inductive XElem where
  | mk (name : Str) (attrs : List (Str × Str)) (text : Option Str) (children : List XElem)

/-- Tag name accessor. -/
def XElem.name : XElem → Str
  | .mk n _ _ _ => n

/-- Attribute list accessor. -/
def XElem.attrs : XElem → List (Str × Str)
  | .mk _ a _ _ => a

/-- Text accessor. -/
def XElem.textOf : XElem → Option Str
  | .mk _ _ t _ => t

/-- Children accessor. -/
def XElem.children : XElem → List XElem
  | .mk _ _ _ ch => ch

theorem XElem.strongInd (P : XElem → Prop)
    (h : ∀ n a t ch, (∀ c ∈ ch, P c) → P (.mk n a t ch)) : ∀ e, P e := by
  intro e
  induction e using XElem.rec (motive_2 := fun l => ∀ c ∈ l, P c) with
  | mk n a t ch ih => exact h n a t ch ih
  | nil =>
    rename_i c hc
    exact absurd hc (List.not_mem_nil c)
  | cons hd tl ih1 ih2 =>
    rename_i c hc
    rcases List.mem_cons.mp hc with rfl | hc
    · exact ih1
    · exact ih2 c hc

/-- An element with neither attributes nor text. -/
def el (n : String) (ch : List XElem) : XElem := .mk (strL n) [] none ch

/-- A leaf element carrying text. -/
def elT (n : String) (t : Str) : XElem := .mk (strL n) [] (some t) []

/-- A leaf element with attributes and text. -/
def elAT (n : String) (a : List (Str × Str)) (t : Str) : XElem := .mk (strL n) a (some t) []

/-- One `IncludedSupplyChainTradeLineItem` block: the resolved 2-decimal
    renderings of one line item (the builder's f-string formatting fails on
    non-numbers, which `resolveItem` models). -/
structure LineFmt where
  descr : Str
  qty : Str
  price : Str
  rate : Str
  lineTotal : Str

/-- The fallible per-item value resolution of the line-item loop: reading a
    missing key raises `KeyError`, formatting a non-float raises. -/
def resolveItem (it : Item) : Option LineFmt := do
  let price ← pyFmt2 (← it.unit_price)
  let qty ← pyFmt2 (← it.quantity)
  let rate ← pyFmt2 (← it.vat_rate)
  pure { descr := it.description, qty := qty, price := price, rate := rate,
         lineTotal := fmt2 it.amount_ht }

/-- The line-item block for 1-based line id `idx`. -/
def lineElem (idx : ℕ) (lf : LineFmt) : XElem :=
  el "ram:IncludedSupplyChainTradeLineItem"
    [ el "ram:AssociatedDocumentLineDocument" [elT "ram:LineID" (natStr idx)],
      el "ram:SpecifiedTradeProduct" [elT "ram:Name" lf.descr],
      el "ram:SpecifiedLineTradeAgreement"
        [el "ram:NetPriceProductTradePrice" [elT "ram:ChargeAmount" lf.price]],
      el "ram:SpecifiedLineTradeDelivery"
        [elAT "ram:BilledQuantity" [(strL "unitCode", strL "C62")] lf.qty],
      el "ram:SpecifiedLineTradeSettlement"
        [ el "ram:ApplicableTradeTax"
            [ elT "ram:TypeCode" (strL "VAT"), elT "ram:CategoryCode" (strL "S"),
              elT "ram:RateApplicablePercent" lf.rate ],
          el "ram:SpecifiedTradeSettlementLineMonetarySummation"
            [elT "ram:LineTotalAmount" lf.lineTotal] ] ]

/-- The dict accumulation `vat_rates[rate]['base'/'tax'] += ...`: merge into
    the existing entry for the rate or append a new one (Python dicts iterate
    in first-insertion order). -/
def addGroup : List (ℚ × ℚ × ℚ) → ℚ → ℚ → ℚ → List (ℚ × ℚ × ℚ)
  | [], r, b, t => [(r, b, t)]
  | (r', b', t') :: rest, r, b, t =>
    if r = r' then (r', b' + b, t' + t) :: rest
    else (r', b', t') :: addGroup rest r b t

/-- `float(item['vat_rate'])` as an `Option`. -/
def rateQ (it : Item) : Option ℚ := it.vat_rate.bind pyFloat

/-- Total version of `rateQ` (default 0), used to state properties. -/
def rateD (it : Item) : ℚ := (rateQ it).getD 0

/-- The per-rate aggregation over the items, total version. -/
def vatGroupsD (items : List Item) : List (ℚ × ℚ × ℚ) :=
  items.foldl (fun acc it => addGroup acc (rateD it) it.amount_ht it.vat_amount) []

/-- The aggregation as executed: `float(item['vat_rate'])` may raise. -/
def vatGroupsQ (items : List Item) : Option (List (ℚ × ℚ × ℚ)) :=
  items.foldlM
    (fun acc it => (rateQ it).map (fun r => addGroup acc r it.amount_ht it.vat_amount)) []

/-- One settlement tax-summary block for a `(rate, base, tax)` group. -/
def taxBlockElem (g : ℚ × ℚ × ℚ) : XElem :=
  el "ram:ApplicableTradeTax"
    [ elT "ram:CalculatedAmount" (fmt2 g.2.2),
      elT "ram:TypeCode" (strL "VAT"),
      elT "ram:BasisAmount" (fmt2 g.2.1),
      elT "ram:CategoryCode" (strL "S"),
      elT "ram:RateApplicablePercent" (fmt2 g.1) ]

/-- The `ExchangedDocumentContext` block. -/
def contextElem : XElem :=
  el "rsm:ExchangedDocumentContext"
    [el "ram:GuidelineSpecifiedDocumentContextParameter"
      [elT "ram:ID" (strL "urn:cen.eu:en16931:2017#compliant#urn:factur-x.eu:1p0:basic")]]

/-- The `ExchangedDocument` block: invoice number, type code 380, issue date
    rendered as format 102 (`YYYYMMDD`, dashes stripped). -/
def documentElem (d : InvoiceData) : XElem :=
  el "rsm:ExchangedDocument"
    [ elT "ram:ID" d.invoice_number,
      elT "ram:TypeCode" (strL "380"),
      el "ram:IssueDateTime"
        [elAT "udt:DateTimeString" [(strL "format", strL "102")]
          (d.date.filter (fun c => c != '-'))] ]

/-- The `ApplicableHeaderTradeAgreement` block, given the resolved seller VAT
    id. The seller legal-organization ID is `data['issuer'].get('siret',
    '00000000000000')`. -/
def agreementElem (d : InvoiceData) (vat : Str) : XElem :=
  el "ram:ApplicableHeaderTradeAgreement"
    [ el "ram:SellerTradeParty"
        [ elT "ram:Name" d.issuer.name,
          el "ram:SpecifiedLegalOrganization"
            [elT "ram:ID" (d.issuer.siret.getD (strL "00000000000000"))],
          el "ram:PostalTradeAddress"
            [ elT "ram:PostcodeCode" d.issuer.postal_code,
              elT "ram:LineOne" d.issuer.address,
              elT "ram:CityName" d.issuer.city,
              elT "ram:CountryID" (strL "FR") ],
          el "ram:SpecifiedTaxRegistration"
            [elAT "ram:ID" [(strL "schemeID", strL "VA")] vat] ],
      el "ram:BuyerTradeParty"
        [ elT "ram:Name" d.recipient.name,
          el "ram:PostalTradeAddress"
            [ elT "ram:PostcodeCode" d.recipient.postal_code,
              elT "ram:LineOne" d.recipient.address,
              elT "ram:CityName" d.recipient.city,
              elT "ram:CountryID" (strL "FR") ] ] ]

/-- The header monetary-summation block: `LineTotal` and `TaxBasisTotal` are
    `total_ht`, `TaxTotal` (with currency) is `total_vat`, `GrandTotal` and
    `DuePayable` are the rendering of `total_ttc`. -/
def monetaryElem (d : InvoiceData) (ttcS : Str) : XElem :=
  el "ram:SpecifiedTradeSettlementHeaderMonetarySummation"
    [ elT "ram:LineTotalAmount" (fmt2 d.total_ht),
      elT "ram:TaxBasisTotalAmount" (fmt2 d.total_ht),
      elAT "ram:TaxTotalAmount" [(strL "currencyID", strL "EUR")] (fmt2 d.total_vat),
      elT "ram:GrandTotalAmount" ttcS,
      elT "ram:DuePayableAmount" ttcS ]

/-- The `ApplicableHeaderTradeSettlement` block, given the resolved VAT
    groups and `GrandTotal`/`DuePayable` rendering. -/
def settlementElem (d : InvoiceData) (groups : List (ℚ × ℚ × ℚ)) (ttcS : Str) : XElem :=
  el "ram:ApplicableHeaderTradeSettlement"
    ([elT "ram:InvoiceCurrencyCode" (strL "EUR")]
     ++ groups.map taxBlockElem
     ++ [ el "ram:SpecifiedTradePaymentTerms"
            [elT "ram:Description" (strL "Paiement à réception de facture")],
          monetaryElem d ttcS ])

/-- The `SupplyChainTradeTransaction` block. -/
def transactionElem (d : InvoiceData) (lines : List XElem) (vat : Str)
    (groups : List (ℚ × ℚ × ℚ)) (ttcS : Str) : XElem :=
  el "rsm:SupplyChainTradeTransaction"
    (lines ++ [agreementElem d vat, el "ram:ApplicableHeaderTradeDelivery" [],
               settlementElem d groups ttcS])

/-- The whole document tree, with all fallible sub-values resolved: root with
    the four namespace bindings, context, document header, transaction. -/
def mkDoc (d : InvoiceData) (lines : List XElem) (vat : Str) (groups : List (ℚ × ℚ × ℚ))
    (ttcS : Str) : XElem :=
  .mk (strL "rsm:CrossIndustryInvoice")
    [ (strL "xmlns:rsm", strL "urn:un:unece:uncefact:data:standard:CrossIndustryInvoice:100"),
      (strL "xmlns:ram",
        strL "urn:un:unece:uncefact:data:standard:ReusableAggregateBusinessInformationEntity:100"),
      (strL "xmlns:udt", strL "urn:un:unece:uncefact:data:standard:UnqualifiedDataType:100"),
      (strL "xmlns:qdt", strL "urn:un:unece:uncefact:data:standard:QualifiedDataType:100") ]
    none
    [contextElem, documentElem d, transactionElem d lines vat groups ttcS]

/-- `_generate_facturx_xml` up to serialization: `none` models any exception
    raised while building (a missing or non-numeric item value, or the
    `int(...)` failure while deriving the seller VAT number). -/
def buildRoot (d : InvoiceData) : Option XElem := do
  let lfs ← d.items.mapM resolveItem
  let lines := (List.enumFrom 1 lfs).map (fun p => lineElem p.1 p.2)
  let vat ← sellerVatNumber d.issuer
  let groups ← vatGroupsQ d.items
  let ttcS ← pyFmt2 d.total_ttc
  pure (mkDoc d lines vat groups ttcS)

/-- lxml text escaping: `&`, `<`, `>` become entities. -/
def escChar (c : Char) : Str :=
  if c = '&' then strL "&amp;" else if c = '<' then strL "&lt;"
  else if c = '>' then strL "&gt;" else [c]

/-- Escaped element text. -/
def escText (s : Str) : Str := (s.map escChar).flatten

/-- lxml attribute-value escaping (quotes as well). -/
def escAttrChar (c : Char) : Str :=
  if c = '&' then strL "&amp;" else if c = '<' then strL "&lt;"
  else if c = '>' then strL "&gt;" else if c = '"' then strL "&quot;" else [c]

/-- Escaped attribute value. -/
def escAttr (s : Str) : Str := (s.map escAttrChar).flatten

/-- ` key="value"` for one attribute. -/
def attrStr (kv : Str × Str) : Str := ' ' :: (kv.1 ++ '=' :: '"' :: (escAttr kv.2 ++ ['"']))

/-- The serialized attribute list. -/
def attrsStr (l : List (Str × Str)) : Str := (l.map attrStr).flatten

mutual
/-- Serialization of an element as `etree.tostring` renders it (without
    pretty-printing): a self-closing tag when the element has neither text
    nor children, otherwise open tag, escaped text, children, closing tag. -/
def serializeE : XElem → Str
  | .mk n a t ch =>
    if t.isNone && ch.isEmpty then '<' :: (n ++ attrsStr a ++ strL "/>")
    else
      ('<' :: (n ++ attrsStr a ++ ['>'])) ++ escText (t.getD [])
        ++ serializeL ch
        ++ ('<' :: '/' :: (n ++ ['>']))

/-- Serialization of a list of sibling elements. -/
def serializeL : List XElem → Str
  | [] => []
  | c :: cs => serializeE c ++ serializeL cs
end

theorem serializeL_eq (ch : List XElem) : serializeL ch = (ch.map serializeE).flatten := by
  induction ch with
  | nil => rfl
  | cons c cs ih => rw [serializeL, ih, List.map_cons, List.flatten_cons]

theorem serializeE_def (n : Str) (a : List (Str × Str)) (t : Option Str) (ch : List XElem) :
    serializeE (.mk n a t ch)
      = if t.isNone && ch.isEmpty then '<' :: (n ++ attrsStr a ++ strL "/>")
        else
          ('<' :: (n ++ attrsStr a ++ ['>'])) ++ escText (t.getD [])
            ++ (ch.map serializeE).flatten
            ++ ('<' :: '/' :: (n ++ ['>'])) := by
  rw [serializeE, serializeL_eq]

/-- Tokens of the XML lexer. -/
inductive Tok where
  | openT (n : Str)
  | closeT (n : Str)
  | selfT (n : Str)
  | declT
  | textT (s : Str)
deriving DecidableEq

/-- The tag name of an open-tag body: everything before the first space or
    slash. -/
def tagName (body : Str) : Str := body.takeWhile (fun c => !(c == ' ' || c == '/'))

/-- Lex one tag found after a `<`: an XML declaration, a closing tag, a
    self-closing tag or an opening tag; `none` on malformed input. -/
def lexTag (s : Str) : Option (Tok × Str) :=
  match s with
  | [] => none
  | c :: rest =>
    if c = '?' then
      match rest.dropWhile (fun x => x != '>') with
      | '>' :: tail =>
        if (rest.takeWhile (fun x => x != '>')).getLast? = some '?' then some (.declT, tail)
        else none
      | _ => none
    else if c = '/' then
      match rest.dropWhile (fun x => x != '>') with
      | '>' :: tail => some (.closeT (rest.takeWhile (fun x => x != '>')), tail)
      | _ => none
    else
      match (c :: rest).dropWhile (fun x => x != '>') with
      | '>' :: tail =>
        let body := (c :: rest).takeWhile (fun x => x != '>')
        if body.isEmpty then none
        else if body.getLast? = some '/' then some (.selfT (tagName body.dropLast), tail)
        else some (.openT (tagName body), tail)
      | _ => none

/-- Tokenize a document: text runs (up to the next `<`) and tags. The fuel
    bounds the number of tokens; `none` on malformed input or fuel
    exhaustion. -/
def lexAllF : ℕ → Str → Option (List Tok)
  | 0, _ => none
  | _ + 1, [] => some []
  | f + 1, c :: rest =>
    if c = '<' then
      match lexTag rest with
      | none => none
      | some (t, tail) => (lexAllF f tail).map (fun ts => t :: ts)
    else
      (lexAllF f ((c :: rest).dropWhile (fun x => x != '<'))).map
        (fun ts => Tok.textT ((c :: rest).takeWhile (fun x => x != '<')) :: ts)

/-- Proper nesting of a token stream against a stack of open tag names. -/
def chkToks : List Tok → List Str → Bool
  | [], [] => true
  | [], _ :: _ => false
  | .openT n :: ts, st => chkToks ts (n :: st)
  | .closeT n :: ts, m :: st => n == m && chkToks ts st
  | .closeT _ :: _, [] => false
  | .selfT _ :: ts, st => chkToks ts st
  | .declT :: ts, st => chkToks ts st
  | .textT _ :: ts, st => chkToks ts st

/-- Model of `etree.fromstring` succeeding: the document tokenizes and its
    tags nest properly. -/
def wellFormedXml (s : Str) : Bool :=
  match lexAllF (s.length + 1) s with
  | some ts => chkToks ts []
  | none => false

/-- Boolean substring occurrence. -/
def containsSub (pat : Str) : Str → Bool
  | [] => pat.isEmpty
  | c :: rest => pat.isPrefixOf (c :: rest) || containsSub pat rest

/-- `_validate_xml`: parse the document, then require the literal presence of
    the four mandatory element names; `False` is only advisory in the
    generator. -/
def validate_xml (s : Str) : Bool :=
  if wellFormedXml s then
    [strL "CrossIndustryInvoice", strL "ExchangedDocumentContext",
     strL "ExchangedDocument", strL "SupplyChainTradeTransaction"].all
      (fun e => containsSub e s)
  else false

/-- The XML prolog emitted by `_generate_facturx_xml`. -/
def xmlProlog : Str := strL "<?xml version=\"1.0\" encoding=\"UTF-8\"?>\n"

/-- `_generate_facturx_xml`: prolog plus serialized tree (`none` models a
    raised exception). -/
def generate_facturx_xml (d : InvoiceData) : Option Str :=
  (buildRoot d).map (fun root => xmlProlog ++ serializeE root)

/-- First child with the given tag name. -/
def XElem.childNamed (x : XElem) (n : String) : Option XElem :=
  x.children.find? (fun c => c.name == strL n)

/-- Walk down a path of tag names, taking the first match at each level. -/
def descend (x : XElem) : List String → Option XElem
  | [] => some x
  | n :: rest => (x.childNamed n).bind (fun c => descend c rest)

/-- The seller's legal-organization ID text in a built document. -/
def sellerLegalId (x : XElem) : Option Str :=
  (descend x ["rsm:SupplyChainTradeTransaction", "ram:ApplicableHeaderTradeAgreement",
              "ram:SellerTradeParty", "ram:SpecifiedLegalOrganization", "ram:ID"]).bind
    XElem.textOf

/-- The seller's tax-registration ID text in a built document. -/
def sellerVatId (x : XElem) : Option Str :=
  (descend x ["rsm:SupplyChainTradeTransaction", "ram:ApplicableHeaderTradeAgreement",
              "ram:SellerTradeParty", "ram:SpecifiedTaxRegistration", "ram:ID"]).bind
    XElem.textOf

/-- The settlement-level tax-summary blocks of a built document. -/
def settlementTaxBlocks (x : XElem) : List XElem :=
  match descend x ["rsm:SupplyChainTradeTransaction", "ram:ApplicableHeaderTradeSettlement"] with
  | some s => s.children.filter (fun c => c.name == strL "ram:ApplicableTradeTax")
  | none => []

/-- A field's text in the header monetary-summation block. -/
def monetaryText (x : XElem) (field : String) : Option Str :=
  (descend x ["rsm:SupplyChainTradeTransaction", "ram:ApplicableHeaderTradeSettlement",
              "ram:SpecifiedTradeSettlementHeaderMonetarySummation", field]).bind XElem.textOf

/-- `GrandTotalAmount` of the built document, in centimes. -/
def grandTotalCents (x : XElem) : Option ℤ :=
  (monetaryText x "ram:GrandTotalAmount").bind parseCents

/-- `TaxBasisTotalAmount` of the built document, in centimes. -/
def taxBasisCents (x : XElem) : Option ℤ :=
  (monetaryText x "ram:TaxBasisTotalAmount").bind parseCents

/-- `TaxTotalAmount` of the built document, in centimes. -/
def taxTotalCents (x : XElem) : Option ℤ :=
  (monetaryText x "ram:TaxTotalAmount").bind parseCents

theorem find?_lines_none (lines : List XElem)
    (hlines : ∀ e ∈ lines, e.name = strL "ram:IncludedSupplyChainTradeLineItem")
    (n : Str) (hn : (strL "ram:IncludedSupplyChainTradeLineItem" == n) = false) :
    lines.find? (fun c => c.name == n) = none := by
  rw [List.find?_eq_none]
  intro a ha
  rw [hlines a ha, hn]
  exact Bool.false_ne_true

theorem lineElem_names (lfs : List LineFmt) :
    ∀ e ∈ (List.enumFrom 1 lfs).map (fun p => lineElem p.1 p.2),
      e.name = strL "ram:IncludedSupplyChainTradeLineItem" := by
  intro e he
  obtain ⟨p, _, rfl⟩ := List.mem_map.mp he
  rfl

theorem buildRoot_inv {d : InvoiceData} {x : XElem} (h : buildRoot d = some x) :
    ∃ lfs vat groups ttcS,
      d.items.mapM resolveItem = some lfs ∧ sellerVatNumber d.issuer = some vat ∧
      vatGroupsQ d.items = some groups ∧ pyFmt2 d.total_ttc = some ttcS ∧
      x = mkDoc d ((List.enumFrom 1 lfs).map (fun p => lineElem p.1 p.2)) vat groups ttcS := by
  unfold buildRoot at h
  rcases h1 : d.items.mapM resolveItem with _ | lfs <;> rw [h1] at h
  · exact absurd h (by simp)
  rcases h2 : sellerVatNumber d.issuer with _ | vat <;> rw [h2] at h
  · exact absurd h (by simp)
  rcases h3 : vatGroupsQ d.items with _ | groups <;> rw [h3] at h
  · exact absurd h (by simp)
  rcases h4 : pyFmt2 d.total_ttc with _ | ttcS <;> rw [h4] at h
  · exact absurd h (by simp)
  refine ⟨lfs, vat, groups, ttcS, rfl, rfl, rfl, rfl, ?_⟩
  simpa using h.symm

theorem find?_map_none {α : Type} (l : List α) (f : α → XElem) (p : XElem → Bool)
    (h : ∀ a, p (f a) = false) : (l.map f).find? p = none := by
  rw [List.find?_eq_none]
  intro x hx
  obtain ⟨a, _, rfl⟩ := List.mem_map.mp hx
  simp [h]

theorem transaction_child_agreement (d : InvoiceData) (lines : List XElem) (vat : Str)
    (groups : List (ℚ × ℚ × ℚ)) (ttcS : Str)
    (hlines : ∀ e ∈ lines, e.name = strL "ram:IncludedSupplyChainTradeLineItem") :
    (transactionElem d lines vat groups ttcS).childNamed "ram:ApplicableHeaderTradeAgreement"
      = some (agreementElem d vat) := by
  show (lines ++ [agreementElem d vat, el "ram:ApplicableHeaderTradeDelivery" [],
        settlementElem d groups ttcS]).find?
      (fun c => c.name == strL "ram:ApplicableHeaderTradeAgreement") = _
  rw [List.find?_append, find?_lines_none lines hlines _ (by decide)]
  rfl

theorem transaction_child_settlement (d : InvoiceData) (lines : List XElem) (vat : Str)
    (groups : List (ℚ × ℚ × ℚ)) (ttcS : Str)
    (hlines : ∀ e ∈ lines, e.name = strL "ram:IncludedSupplyChainTradeLineItem") :
    (transactionElem d lines vat groups ttcS).childNamed "ram:ApplicableHeaderTradeSettlement"
      = some (settlementElem d groups ttcS) := by
  show (lines ++ [agreementElem d vat, el "ram:ApplicableHeaderTradeDelivery" [],
        settlementElem d groups ttcS]).find?
      (fun c => c.name == strL "ram:ApplicableHeaderTradeSettlement") = _
  rw [List.find?_append, find?_lines_none lines hlines _ (by decide)]
  rfl

theorem sellerLegalId_mkDoc (d : InvoiceData) (lines : List XElem) (vat : Str)
    (groups : List (ℚ × ℚ × ℚ)) (ttcS : Str)
    (hlines : ∀ e ∈ lines, e.name = strL "ram:IncludedSupplyChainTradeLineItem") :
    sellerLegalId (mkDoc d lines vat groups ttcS)
      = some (d.issuer.siret.getD (strL "00000000000000")) := by
  unfold sellerLegalId
  rw [show descend (mkDoc d lines vat groups ttcS)
        ["rsm:SupplyChainTradeTransaction", "ram:ApplicableHeaderTradeAgreement",
         "ram:SellerTradeParty", "ram:SpecifiedLegalOrganization", "ram:ID"]
      = ((transactionElem d lines vat groups ttcS).childNamed
          "ram:ApplicableHeaderTradeAgreement").bind
          (fun c => descend c ["ram:SellerTradeParty", "ram:SpecifiedLegalOrganization",
            "ram:ID"]) from rfl]
  rw [transaction_child_agreement d lines vat groups ttcS hlines]
  rfl

theorem sellerVatId_mkDoc (d : InvoiceData) (lines : List XElem) (vat : Str)
    (groups : List (ℚ × ℚ × ℚ)) (ttcS : Str)
    (hlines : ∀ e ∈ lines, e.name = strL "ram:IncludedSupplyChainTradeLineItem") :
    sellerVatId (mkDoc d lines vat groups ttcS) = some vat := by
  unfold sellerVatId
  rw [show descend (mkDoc d lines vat groups ttcS)
        ["rsm:SupplyChainTradeTransaction", "ram:ApplicableHeaderTradeAgreement",
         "ram:SellerTradeParty", "ram:SpecifiedTaxRegistration", "ram:ID"]
      = ((transactionElem d lines vat groups ttcS).childNamed
          "ram:ApplicableHeaderTradeAgreement").bind
          (fun c => descend c ["ram:SellerTradeParty", "ram:SpecifiedTaxRegistration",
            "ram:ID"]) from rfl]
  rw [transaction_child_agreement d lines vat groups ttcS hlines]
  rfl

theorem filter_taxBlocks (groups : List (ℚ × ℚ × ℚ)) :
    (groups.map taxBlockElem).filter (fun c => c.name == strL "ram:ApplicableTradeTax")
      = groups.map taxBlockElem := by
  induction groups with
  | nil => rfl
  | cons g gs ih =>
    rw [List.map_cons, List.filter_cons_of_pos (by rfl), ih]

theorem taxBlocks_mkDoc (d : InvoiceData) (lines : List XElem) (vat : Str)
    (groups : List (ℚ × ℚ × ℚ)) (ttcS : Str)
    (hlines : ∀ e ∈ lines, e.name = strL "ram:IncludedSupplyChainTradeLineItem") :
    settlementTaxBlocks (mkDoc d lines vat groups ttcS) = groups.map taxBlockElem := by
  unfold settlementTaxBlocks
  rw [show descend (mkDoc d lines vat groups ttcS)
        ["rsm:SupplyChainTradeTransaction", "ram:ApplicableHeaderTradeSettlement"]
      = ((transactionElem d lines vat groups ttcS).childNamed
          "ram:ApplicableHeaderTradeSettlement").bind (fun c => descend c []) from rfl]
  rw [transaction_child_settlement d lines vat groups ttcS hlines]
  show ([elT "ram:InvoiceCurrencyCode" (strL "EUR")] ++ groups.map taxBlockElem
      ++ [el "ram:SpecifiedTradePaymentTerms"
            [elT "ram:Description" (strL "Paiement à réception de facture")],
          monetaryElem d ttcS]).filter (fun c => c.name == strL "ram:ApplicableTradeTax") = _
  rw [List.filter_append, List.filter_append, filter_taxBlocks]
  rw [show List.filter (fun c => c.name == strL "ram:ApplicableTradeTax")
        [elT "ram:InvoiceCurrencyCode" (strL "EUR")] = [] from rfl]
  rw [show List.filter (fun c => c.name == strL "ram:ApplicableTradeTax")
        [el "ram:SpecifiedTradePaymentTerms"
          [elT "ram:Description" (strL "Paiement à réception de facture")],
         monetaryElem d ttcS] = [] from rfl]
  simp

theorem settlement_child_monetary (d : InvoiceData) (groups : List (ℚ × ℚ × ℚ)) (ttcS : Str) :
    (settlementElem d groups ttcS).childNamed
        "ram:SpecifiedTradeSettlementHeaderMonetarySummation" = some (monetaryElem d ttcS) := by
  show ([elT "ram:InvoiceCurrencyCode" (strL "EUR")] ++ groups.map taxBlockElem
      ++ [el "ram:SpecifiedTradePaymentTerms"
            [elT "ram:Description" (strL "Paiement à réception de facture")],
          monetaryElem d ttcS]).find?
      (fun c => c.name == strL "ram:SpecifiedTradeSettlementHeaderMonetarySummation") = _
  rw [List.find?_append, List.find?_append, find?_map_none _ _ _ (fun g => by rfl)]
  rfl

theorem monetaryText_mkDoc (d : InvoiceData) (lines : List XElem) (vat : Str)
    (groups : List (ℚ × ℚ × ℚ)) (ttcS : Str)
    (hlines : ∀ e ∈ lines, e.name = strL "ram:IncludedSupplyChainTradeLineItem") :
    monetaryText (mkDoc d lines vat groups ttcS) "ram:GrandTotalAmount" = some ttcS ∧
    monetaryText (mkDoc d lines vat groups ttcS) "ram:TaxBasisTotalAmount"
      = some (fmt2 d.total_ht) ∧
    monetaryText (mkDoc d lines vat groups ttcS) "ram:TaxTotalAmount"
      = some (fmt2 d.total_vat) := by
  refine ⟨?_, ?_, ?_⟩ <;>
  · unfold monetaryText
    rw [show descend (mkDoc d lines vat groups ttcS)
          ["rsm:SupplyChainTradeTransaction", "ram:ApplicableHeaderTradeSettlement",
           "ram:SpecifiedTradeSettlementHeaderMonetarySummation", _]
        = ((transactionElem d lines vat groups ttcS).childNamed
            "ram:ApplicableHeaderTradeSettlement").bind
            (fun c => descend c ["ram:SpecifiedTradeSettlementHeaderMonetarySummation", _])
        from rfl]
    rw [transaction_child_settlement d lines vat groups ttcS hlines]
    rw [show ((some (settlementElem d groups ttcS)).bind
          (fun c => descend c ["ram:SpecifiedTradeSettlementHeaderMonetarySummation", _]))
        = ((settlementElem d groups ttcS).childNamed
            "ram:SpecifiedTradeSettlementHeaderMonetarySummation").bind
            (fun c => descend c [_]) from rfl]
    rw [settlement_child_monetary d groups ttcS]
    rfl

/-- A fully valid record whose issuer SIRET contains hyphens (and no explicit
    VAT number). -/
def c6Data : InvoiceData :=
  { date := strL "2024-01-15", invoice_number := strL "F-2024-002",
    issuer := { name := strL "ACME", address := strL "1 rue A", postal_code := strL "75001",
                city := strL "Paris", siret := some (strL "391-123-565-00016"),
                vat_number := none },
    recipient := { name := strL "Client", address := strL "2 rue B", postal_code := strL "69001",
                   city := strL "Lyon", siret := none, vat_number := none },
    items := [{ description := strL "Prestation", quantity := some (.num 1),
                unit_price := some (.num 10), vat_rate := some (.num 20),
                amount_ht := 10, vat_amount := 2, amount_ttc := 12 }],
    total_ht := 10, total_vat := 2, total_ttc := .num 12 }

/-- **C6 (code bug).** The hyphenated SIRET `"391-123-565-00016"` passes the
    validator (which strips whitespace and hyphens), and the spec's derivation
    rule yields `"FR22391123565"`; but the builder strips only spaces, hands
    `int(...)` the slice `"391-123-5"`, and the resulting `ValueError` aborts
    generation: no VAT number and no XML are produced at all. -/
theorem vat_derivation_crash :
    validate_siret (strL "391-123-565-00016") = true ∧
    validate_invoice_data c6Data = Except.ok true ∧
    claimVatDerive (strL "391-123-565-00016") = strL "FR22391123565" ∧
    sellerVatNumber c6Data.issuer = none ∧
    generate_facturx_xml c6Data = none := by
  refine ⟨by decide, by with_unfolding_all rfl, by decide, by with_unfolding_all rfl,
    by with_unfolding_all rfl⟩

/-- A valid record whose issuer `siret` key is present but holds the empty
    string (exactly what the web form submits when the field is left blank),
    with no explicit VAT number. -/
def cexEmptySiretData : InvoiceData :=
  { date := strL "2024-01-15", invoice_number := strL "F-2024-003",
    issuer := { name := strL "ACME", address := strL "1 rue A", postal_code := strL "75001",
                city := strL "Paris", siret := some [], vat_number := none },
    recipient := { name := strL "Client", address := strL "2 rue B", postal_code := strL "69001",
                   city := strL "Lyon", siret := none, vat_number := none },
    items := [{ description := strL "Prestation", quantity := some (.num 1),
                unit_price := some (.num 10), vat_rate := some (.num 20),
                amount_ht := 10, vat_amount := 2, amount_ttc := 12 }],
    total_ht := 10, total_vat := 2, total_ttc := .num 12 }

/-- **C9, counterexample.** With the `siret` key present but empty, the
    emitted seller legal-organization ID is the empty string, not the 14-zero
    placeholder the claim promises for that case. -/
theorem seller_legal_id_cex :
    cexEmptySiretData.issuer.siret = some [] ∧
    (∃ x, buildRoot cexEmptySiretData = some x ∧ sellerLegalId x = some []) ∧
    ([] : Str) ≠ strL "00000000000000" := by
  refine ⟨rfl, ⟨(buildRoot cexEmptySiretData).getD (el "x" []), ?_, ?_⟩, by decide⟩
  · with_unfolding_all rfl
  · with_unfolding_all rfl

/-- **C9, amended.** In every successfully built document the seller
    legal-organization ID is the issuer's `siret` value whenever the key is
    present — even when it is the empty string — and the literal
    `"00000000000000"` only when the key is absent. -/
theorem seller_legal_id_of_build (d : InvoiceData) (x : XElem)
    (hx : buildRoot d = some x) :
    sellerLegalId x = some (d.issuer.siret.getD (strL "00000000000000")) := by
  obtain ⟨lfs, vat, groups, ttcS, h1, h2, h3, h4, rfl⟩ := buildRoot_inv hx
  exact sellerLegalId_mkDoc d _ vat groups ttcS (lineElem_names lfs)

/-- Witness for the amended C9 theorem: a record without any `siret` key gets
    the placeholder. -/
def w9Data : InvoiceData :=
  { date := strL "2024-01-15", invoice_number := strL "F-2024-004",
    issuer := { name := strL "ACME", address := strL "1 rue A", postal_code := strL "75001",
                city := strL "Paris", siret := none, vat_number := none },
    recipient := { name := strL "Client", address := strL "2 rue B", postal_code := strL "69001",
                   city := strL "Lyon", siret := none, vat_number := none },
    items := [{ description := strL "Prestation", quantity := some (.num 1),
                unit_price := some (.num 10), vat_rate := some (.num 20),
                amount_ht := 10, vat_amount := 2, amount_ttc := 12 }],
    total_ht := 10, total_vat := 2, total_ttc := .num 12 }

theorem seller_legal_id_of_build_witness :
    sellerLegalId ((buildRoot w9Data).getD (el "x" []))
      = some (w9Data.issuer.siret.getD (strL "00000000000000")) :=
  seller_legal_id_of_build w9Data _ (by with_unfolding_all rfl)

/-- **C10.** When the issuer's `siret` key is present but empty and no VAT
    number is supplied, the seller tax-registration ID in the built XML is the
    literal `"FR00"`. -/
theorem empty_siret_vat_fr00 (d : InvoiceData) (x : XElem)
    (hs : d.issuer.siret = some []) (hv : d.issuer.vat_number.getD [] = [])
    (hx : buildRoot d = some x) :
    sellerVatId x = some (strL "FR00") := by
  obtain ⟨lfs, vat, groups, ttcS, h1, h2, h3, h4, rfl⟩ := buildRoot_inv hx
  have hvat : sellerVatNumber d.issuer = some (strL "FR00") := by
    unfold sellerVatNumber
    rw [hs, hv]
    decide
  rw [h2] at hvat
  have : vat = strL "FR00" := by
    exact Option.some_inj.mp hvat
  rw [this] at *
  exact sellerVatId_mkDoc d _ (strL "FR00") groups ttcS (lineElem_names lfs)

theorem empty_siret_vat_fr00_witness :
    sellerVatId ((buildRoot cexEmptySiretData).getD (el "x" []))
      = some (strL "FR00") :=
  empty_siret_vat_fr00 cexEmptySiretData _ rfl rfl (by with_unfolding_all rfl)

/-- **C2, counterexample.** The builder serializes whatever totals the record
    carries: on `cexTotalsData` (accepted by the validator) the document's
    GrandTotalAmount is 100.00 while TaxBasisTotal + TaxTotal is 0.00 — the
    claimed invariant fails for a buildable record. -/
theorem monetary_invariant_cex :
    (∃ x, buildRoot cexTotalsData = some x ∧
      grandTotalCents x = some 10000 ∧ taxBasisCents x = some 0 ∧ taxTotalCents x = some 0) ∧
    ¬ (|(10000 : ℤ) - (0 + 0)| ≤ 1) := by
  refine ⟨⟨(buildRoot cexTotalsData).getD (el "x" []), ?_, ?_, ?_, ?_⟩, by decide⟩
  · with_unfolding_all rfl
  · with_unfolding_all rfl
  · with_unfolding_all rfl
  · with_unfolding_all rfl

/-- **C2, amended.** For every record whose `total_ttc` is the number
    `total_ht + total_vat` — as the form pipeline guarantees — the built
    document's GrandTotalAmount equals TaxBasisTotalAmount + TaxTotalAmount
    within one centime (2-decimal rounding tolerance). -/
theorem monetary_invariant_of_consistent (d : InvoiceData) (x : XElem)
    (hcons : d.total_ttc = PyNum.num (d.total_ht + d.total_vat))
    (hx : buildRoot d = some x) :
    ∃ g b t : ℤ, grandTotalCents x = some g ∧ taxBasisCents x = some b ∧
      taxTotalCents x = some t ∧ |g - (b + t)| ≤ 1 := by
  obtain ⟨lfs, vat, groups, ttcS, h1, h2, h3, h4, rfl⟩ := buildRoot_inv hx
  obtain ⟨hg, hb, ht⟩ := monetaryText_mkDoc d _ vat groups ttcS (lineElem_names lfs)
  rw [hcons] at h4
  have httcS : ttcS = fmt2 (d.total_ht + d.total_vat) := by
    have : pyFmt2 (PyNum.num (d.total_ht + d.total_vat))
        = some (fmt2 (d.total_ht + d.total_vat)) := rfl
    rw [this] at h4
    exact (Option.some_inj.mp h4).symm
  refine ⟨cents (d.total_ht + d.total_vat), cents d.total_ht, cents d.total_vat, ?_, ?_, ?_, ?_⟩
  · unfold grandTotalCents
    rw [hg, httcS]
    show parseCents (centsToStr (cents (d.total_ht + d.total_vat))) = _
    exact parseCents_centsToStr _
  · unfold taxBasisCents
    rw [hb]
    show parseCents (centsToStr (cents d.total_ht)) = _
    exact parseCents_centsToStr _
  · unfold taxTotalCents
    rw [ht]
    show parseCents (centsToStr (cents d.total_vat)) = _
    exact parseCents_centsToStr _
  · rw [sub_add_eq_sub_sub]
    exact cents_add_close d.total_ht d.total_vat

/-- A consistent record for the C2 witness. -/
def w2Data : InvoiceData :=
  { date := strL "2024-01-15", invoice_number := strL "F-2024-005",
    issuer := { name := strL "ACME", address := strL "1 rue A", postal_code := strL "75001",
                city := strL "Paris", siret := none, vat_number := none },
    recipient := { name := strL "Client", address := strL "2 rue B", postal_code := strL "69001",
                   city := strL "Lyon", siret := none, vat_number := none },
    items := [{ description := strL "Prestation", quantity := some (.num 1),
                unit_price := some (.num 10), vat_rate := some (.num 20),
                amount_ht := 10, vat_amount := 2, amount_ttc := 12 }],
    total_ht := 10, total_vat := 2, total_ttc := .num 12 }

theorem monetary_invariant_of_consistent_witness :
    ∃ g b t : ℤ, grandTotalCents ((buildRoot w2Data).getD (el "x" [])) = some g ∧
      taxBasisCents ((buildRoot w2Data).getD (el "x" [])) = some b ∧
      taxTotalCents ((buildRoot w2Data).getD (el "x" [])) = some t ∧ |g - (b + t)| ≤ 1 :=
  monetary_invariant_of_consistent w2Data _ (by with_unfolding_all rfl)
    (by with_unfolding_all rfl)

/-- The basis amount accumulated for a rate across a group list. -/
def entryB (gs : List (ℚ × ℚ × ℚ)) (r : ℚ) : ℚ :=
  ((gs.filter (fun g => decide (g.1 = r))).map (fun g => g.2.1)).sum

/-- The tax amount accumulated for a rate across a group list. -/
def entryT (gs : List (ℚ × ℚ × ℚ)) (r : ℚ) : ℚ :=
  ((gs.filter (fun g => decide (g.1 = r))).map (fun g => g.2.2)).sum

theorem addGroup_map_fst (acc : List (ℚ × ℚ × ℚ)) (r b t : ℚ) :
    (addGroup acc r b t).map (fun g => g.1) =
      if r ∈ acc.map (fun g => g.1) then acc.map (fun g => g.1)
      else acc.map (fun g => g.1) ++ [r] := by
  induction acc with
  | nil => simp [addGroup]
  | cons a rest ih =>
    obtain ⟨r', b', t'⟩ := a
    by_cases h : r = r'
    · subst h
      simp [addGroup]
    · rw [show addGroup ((r', b', t') :: rest) r b t = (r', b', t') :: addGroup rest r b t by
        simp [addGroup, h]]
      simp only [List.map_cons, ih, List.mem_cons]
      by_cases hm : r ∈ rest.map (fun g => g.1)
      · simp [hm, h]
      · simp [hm, h]

theorem entryB_addGroup (acc : List (ℚ × ℚ × ℚ)) (r b t r₀ : ℚ) :
    entryB (addGroup acc r b t) r₀ = entryB acc r₀ + (if r = r₀ then b else 0) := by
  induction acc with
  | nil =>
    simp only [addGroup, entryB, List.filter_nil, List.map_nil, List.sum_nil, zero_add]
    by_cases h : r = r₀ <;> simp [h]
  | cons a rest ih =>
    obtain ⟨r', b', t'⟩ := a
    by_cases h : r = r'
    · subst h
      rw [show addGroup ((r, b', t') :: rest) r b t = (r, b' + b, t' + t) :: rest by
        simp [addGroup]]
      unfold entryB
      rw [List.filter_cons, List.filter_cons]
      by_cases h0 : r = r₀
      · rw [if_pos (by simp [h0]), if_pos (by simp [h0])]
        simp only [List.map_cons, List.sum_cons, if_pos h0]
        ring
      · rw [if_neg (by simp [h0]), if_neg (by simp [h0]), if_neg h0]
        ring
    · rw [show addGroup ((r', b', t') :: rest) r b t = (r', b', t') :: addGroup rest r b t by
        simp [addGroup, h]]
      unfold entryB at ih ⊢
      rw [List.filter_cons, List.filter_cons]
      by_cases h0 : r' = r₀
      · rw [if_pos (by simp [h0]), if_pos (by simp [h0])]
        simp only [List.map_cons, List.sum_cons]
        rw [ih]
        ring
      · rw [if_neg (by simp [h0]), if_neg (by simp [h0]), ih]

theorem entryT_addGroup (acc : List (ℚ × ℚ × ℚ)) (r b t r₀ : ℚ) :
    entryT (addGroup acc r b t) r₀ = entryT acc r₀ + (if r = r₀ then t else 0) := by
  induction acc with
  | nil =>
    simp only [addGroup, entryT, List.filter_nil, List.map_nil, List.sum_nil, zero_add]
    by_cases h : r = r₀ <;> simp [h]
  | cons a rest ih =>
    obtain ⟨r', b', t'⟩ := a
    by_cases h : r = r'
    · subst h
      rw [show addGroup ((r, b', t') :: rest) r b t = (r, b' + b, t' + t) :: rest by
        simp [addGroup]]
      unfold entryT
      rw [List.filter_cons, List.filter_cons]
      by_cases h0 : r = r₀
      · rw [if_pos (by simp [h0]), if_pos (by simp [h0])]
        simp only [List.map_cons, List.sum_cons, if_pos h0]
        ring
      · rw [if_neg (by simp [h0]), if_neg (by simp [h0]), if_neg h0]
        ring
    · rw [show addGroup ((r', b', t') :: rest) r b t = (r', b', t') :: addGroup rest r b t by
        simp [addGroup, h]]
      unfold entryT at ih ⊢
      rw [List.filter_cons, List.filter_cons]
      by_cases h0 : r' = r₀
      · rw [if_pos (by simp [h0]), if_pos (by simp [h0])]
        simp only [List.map_cons, List.sum_cons]
        rw [ih]
        ring
      · rw [if_neg (by simp [h0]), if_neg (by simp [h0]), ih]

theorem mem_addGroup_fst (acc : List (ℚ × ℚ × ℚ)) (r b t r₀ : ℚ) :
    r₀ ∈ (addGroup acc r b t).map (fun g => g.1) ↔ r₀ ∈ acc.map (fun g => g.1) ∨ r₀ = r := by
  rw [addGroup_map_fst]
  by_cases h : r ∈ acc.map (fun g => g.1)
  · rw [if_pos h]
    constructor
    · exact Or.inl
    · rintro (hm | rfl)
      · exact hm
      · exact h
  · rw [if_neg h]
    simp [List.mem_append]

theorem nodup_addGroup_fst (acc : List (ℚ × ℚ × ℚ)) (r b t : ℚ)
    (h : (acc.map (fun g => g.1)).Nodup) :
    ((addGroup acc r b t).map (fun g => g.1)).Nodup := by
  rw [addGroup_map_fst]
  by_cases hm : r ∈ acc.map (fun g => g.1)
  · rw [if_pos hm]; exact h
  · rw [if_neg hm]
    simp [List.nodup_append, h, hm]

theorem foldl_groups_nodup (items : List Item) :
    ∀ acc : List (ℚ × ℚ × ℚ), (acc.map (fun g => g.1)).Nodup →
      ((items.foldl (fun acc it => addGroup acc (rateD it) it.amount_ht it.vat_amount)
        acc).map (fun g => g.1)).Nodup := by
  induction items with
  | nil => intro acc h; exact h
  | cons it items ih =>
    intro acc h
    exact ih _ (nodup_addGroup_fst _ _ _ _ h)

theorem foldl_groups_mem (items : List Item) :
    ∀ (acc : List (ℚ × ℚ × ℚ)) (r₀ : ℚ),
      r₀ ∈ ((items.foldl (fun acc it => addGroup acc (rateD it) it.amount_ht it.vat_amount)
          acc).map (fun g => g.1))
        ↔ r₀ ∈ acc.map (fun g => g.1) ∨ r₀ ∈ items.map rateD := by
  induction items with
  | nil => simp
  | cons it items ih =>
    intro acc r₀
    rw [List.foldl_cons, ih, mem_addGroup_fst]
    simp only [List.map_cons, List.mem_cons]
    tauto

theorem foldl_groups_entryB (items : List Item) :
    ∀ (acc : List (ℚ × ℚ × ℚ)) (r₀ : ℚ),
      entryB (items.foldl (fun acc it => addGroup acc (rateD it) it.amount_ht it.vat_amount)
          acc) r₀
        = entryB acc r₀
          + ((items.filter (fun it => decide (rateD it = r₀))).map Item.amount_ht).sum := by
  induction items with
  | nil => intro acc r₀; simp
  | cons it items ih =>
    intro acc r₀
    rw [List.foldl_cons, ih, entryB_addGroup, List.filter_cons]
    by_cases h : rateD it = r₀
    · rw [if_pos h, if_pos (show decide (rateD it = r₀) = true by simp [h])]
      simp only [List.map_cons, List.sum_cons]
      ring
    · rw [if_neg h, if_neg (show ¬ decide (rateD it = r₀) = true by simp [h])]
      ring

theorem foldl_groups_entryT (items : List Item) :
    ∀ (acc : List (ℚ × ℚ × ℚ)) (r₀ : ℚ),
      entryT (items.foldl (fun acc it => addGroup acc (rateD it) it.amount_ht it.vat_amount)
          acc) r₀
        = entryT acc r₀
          + ((items.filter (fun it => decide (rateD it = r₀))).map Item.vat_amount).sum := by
  induction items with
  | nil => intro acc r₀; simp
  | cons it items ih =>
    intro acc r₀
    rw [List.foldl_cons, ih, entryT_addGroup, List.filter_cons]
    by_cases h : rateD it = r₀
    · rw [if_pos h, if_pos (show decide (rateD it = r₀) = true by simp [h])]
      simp only [List.map_cons, List.sum_cons]
      ring
    · rw [if_neg h, if_neg (show ¬ decide (rateD it = r₀) = true by simp [h])]
      ring

theorem entry_of_mem_nodup (gs : List (ℚ × ℚ × ℚ)) (hnd : (gs.map (fun g => g.1)).Nodup) :
    ∀ g ∈ gs, entryB gs g.1 = g.2.1 ∧ entryT gs g.1 = g.2.2 := by
  induction gs with
  | nil => intro g hg; cases hg
  | cons a rest ih =>
    intro g hg
    have hnd' : (rest.map (fun g => g.1)).Nodup := (List.nodup_cons.mp hnd).2
    have hna : a.1 ∉ rest.map (fun g => g.1) := (List.nodup_cons.mp hnd).1
    rcases List.mem_cons.mp hg with rfl | hg
    · have hrest : rest.filter (fun g' => decide (g'.1 = g.1)) = [] := by
        rw [List.filter_eq_nil_iff]
        intro b hb
        simp only [decide_eq_true_eq]
        intro heq
        exact hna (List.mem_map.mpr ⟨b, hb, heq⟩)
      unfold entryB entryT
      rw [List.filter_cons, if_pos (by simp), hrest]
      simp
    · have hne : a.1 ≠ g.1 := by
        intro heq
        exact hna (heq ▸ List.mem_map.mpr ⟨g, hg, rfl⟩)
      have := ih hnd' g hg
      unfold entryB entryT at this ⊢
      rw [List.filter_cons, if_neg (by simpa using hne)]
      exact this

theorem vatGroupsD_fst_nodup (items : List Item) :
    ((vatGroupsD items).map (fun g => g.1)).Nodup :=
  foldl_groups_nodup items [] (by simp)

theorem vatGroupsD_fst_mem (items : List Item) (r : ℚ) :
    r ∈ (vatGroupsD items).map (fun g => g.1) ↔ r ∈ items.map rateD := by
  rw [vatGroupsD, foldl_groups_mem]
  simp

theorem vatGroupsD_sums (items : List Item) :
    ∀ g ∈ vatGroupsD items,
      g.2.1 = ((items.filter (fun it => decide (rateD it = g.1))).map Item.amount_ht).sum ∧
      g.2.2 = ((items.filter (fun it => decide (rateD it = g.1))).map Item.vat_amount).sum := by
  intro g hg
  have h := entry_of_mem_nodup (vatGroupsD items) (vatGroupsD_fst_nodup items) g hg
  have hb := foldl_groups_entryB items [] g.1
  have ht := foldl_groups_entryT items [] g.1
  rw [show entryB [] g.1 = 0 from rfl, zero_add] at hb
  rw [show entryT [] g.1 = 0 from rfl, zero_add] at ht
  unfold vatGroupsD at h
  constructor
  · rw [← h.1, hb]
  · rw [← h.2, ht]

theorem vatGroupsQ_eq (items : List Item) :
    ∀ (acc gs : List (ℚ × ℚ × ℚ)),
      items.foldlM
        (fun acc it => (rateQ it).map (fun r => addGroup acc r it.amount_ht it.vat_amount))
        acc = some gs →
      gs = items.foldl (fun acc it => addGroup acc (rateD it) it.amount_ht it.vat_amount) acc := by
  induction items with
  | nil =>
    intro acc gs h
    simp only [List.foldlM_nil, Option.pure_def, Option.some_inj] at h
    simp [h]
  | cons it items ih =>
    intro acc gs h
    rw [List.foldlM_cons] at h
    rcases hr : rateQ it with _ | r <;> rw [hr] at h
    · exact absurd h (by simp)
    · simp only [Option.map_some', Option.some_bind] at h
      rw [List.foldl_cons]
      have hrd : rateD it = r := by simp [rateD, hr]
      rw [hrd]
      exact ih _ _ h

/-- **C7.** Every built document's settlement section carries exactly the
    blocks of the per-rate aggregation: the rates are pairwise distinct and
    are exactly the rates occurring across the items, each block renders (to
    2 decimals, category `"S"`, via `taxBlockElem`) the sums of `amount_ht`
    and `vat_amount` over exactly the items with that rate. -/
theorem tax_blocks_correct (d : InvoiceData) (x : XElem) (hx : buildRoot d = some x) :
    settlementTaxBlocks x = (vatGroupsD d.items).map taxBlockElem ∧
    ((vatGroupsD d.items).map (fun g => g.1)).Nodup ∧
    (∀ r : ℚ, r ∈ (vatGroupsD d.items).map (fun g => g.1) ↔ r ∈ d.items.map rateD) ∧
    (∀ g ∈ vatGroupsD d.items,
      g.2.1 = ((d.items.filter (fun it => decide (rateD it = g.1))).map Item.amount_ht).sum ∧
      g.2.2 = ((d.items.filter (fun it => decide (rateD it = g.1))).map Item.vat_amount).sum) := by
  obtain ⟨lfs, vat, groups, ttcS, h1, h2, h3, h4, rfl⟩ := buildRoot_inv hx
  have hg : groups = vatGroupsD d.items := vatGroupsQ_eq d.items [] groups h3
  subst hg
  exact ⟨taxBlocks_mkDoc d _ vat _ ttcS (lineElem_names lfs), vatGroupsD_fst_nodup d.items,
    fun r => vatGroupsD_fst_mem d.items r, vatGroupsD_sums d.items⟩

/-- Two items sharing the 20% rate, for the C7 witness. -/
def w7Data : InvoiceData :=
  { date := strL "2024-01-15", invoice_number := strL "F-2024-006",
    issuer := { name := strL "ACME", address := strL "1 rue A", postal_code := strL "75001",
                city := strL "Paris", siret := none, vat_number := none },
    recipient := { name := strL "Client", address := strL "2 rue B", postal_code := strL "69001",
                   city := strL "Lyon", siret := none, vat_number := none },
    items := [{ description := strL "Prestation A", quantity := some (.num 1),
                unit_price := some (.num 10), vat_rate := some (.num 20),
                amount_ht := 10, vat_amount := 2, amount_ttc := 12 },
              { description := strL "Prestation B", quantity := some (.num 1),
                unit_price := some (.num 5), vat_rate := some (.num 20),
                amount_ht := 5, vat_amount := 1, amount_ttc := 6 }],
    total_ht := 15, total_vat := 3, total_ttc := .num 18 }

theorem tax_blocks_correct_witness :
    settlementTaxBlocks ((buildRoot w7Data).getD (el "x" []))
      = (vatGroupsD w7Data.items).map taxBlockElem ∧
    ((vatGroupsD w7Data.items).map (fun g => g.1)).Nodup ∧
    (∀ r : ℚ, r ∈ (vatGroupsD w7Data.items).map (fun g => g.1) ↔ r ∈ w7Data.items.map rateD) ∧
    (∀ g ∈ vatGroupsD w7Data.items,
      g.2.1 = ((w7Data.items.filter (fun it => decide (rateD it = g.1))).map
        Item.amount_ht).sum ∧
      g.2.2 = ((w7Data.items.filter (fun it => decide (rateD it = g.1))).map
        Item.vat_amount).sum) :=
  tax_blocks_correct w7Data _ (by with_unfolding_all rfl)

/-- The text token contributed by an element's optional text (empty or absent
    text contributes none). -/
def textToks (t : Option Str) : List Tok :=
  if escText (t.getD []) = [] then [] else [.textT (escText (t.getD []))]

/-- The token stream of a serialized element. -/
def toksE : XElem → List Tok
  | .mk n _ t ch =>
    if t.isNone && ch.isEmpty then [.selfT n]
    else .openT n :: (textToks t ++ (ch.attach.map (fun c => toksE c.1)).flatten)
      ++ [.closeT n]
decreasing_by
  have := List.sizeOf_lt_of_mem c.2
  cases c
  simp at this ⊢
  omega

theorem toksE_def (n : Str) (a : List (Str × Str)) (t : Option Str) (ch : List XElem) :
    toksE (.mk n a t ch)
      = if t.isNone && ch.isEmpty then [.selfT n]
        else .openT n :: (textToks t ++ (ch.map toksE).flatten) ++ [.closeT n] := by
  rw [toksE]
  simp

/-- A tag name the lexer can recover: non-empty, without the characters that
    delimit tags. -/
def goodName (n : Str) : Bool :=
  !n.isEmpty && n.all (fun c => !(c == '<' || c == '>' || c == '/' || c == '?' || c == ' '))

/-- Every tag name and attribute key in the tree is good (attribute keys must
    not contain `>`); values and text need nothing — serialization escapes
    them. -/
def goodE : XElem → Bool
  | .mk n a _ ch =>
    goodName n && a.all (fun kv => kv.1.all (fun c => !(c == '>')))
      && ch.attach.all (fun c => goodE c.1)
decreasing_by
  have := List.sizeOf_lt_of_mem c.2
  cases c
  simp at this ⊢
  omega

theorem attach_all_eq {α : Type} (l : List α) (f : α → Bool) :
    l.attach.all (fun c => f c.1) = l.all f := by
  rw [Bool.eq_iff_iff, List.all_eq_true, List.all_eq_true]
  constructor
  · intro h x hx
    exact h ⟨x, hx⟩ (List.mem_attach _ _)
  · intro h x _
    exact h x.1 x.2

theorem goodE_def (n : Str) (a : List (Str × Str)) (t : Option Str) (ch : List XElem) :
    goodE (.mk n a t ch)
      = (goodName n && a.all (fun kv => kv.1.all (fun c => !(c == '>')))
          && ch.all goodE) := by
  rw [goodE, attach_all_eq]

theorem escChar_spec (c : Char) : ∀ c' ∈ escChar c, c' ≠ '<' ∧ c' ≠ '>' := by
  unfold escChar
  by_cases h1 : c = '&'
  · rw [if_pos h1]; decide
  rw [if_neg h1]
  by_cases h2 : c = '<'
  · rw [if_pos h2]; decide
  rw [if_neg h2]
  by_cases h3 : c = '>'
  · rw [if_pos h3]; decide
  rw [if_neg h3]
  intro c' h
  have hc : c' = c := List.mem_singleton.mp h
  subst hc
  exact ⟨h2, h3⟩

theorem escChar_ne_nil (c : Char) : escChar c ≠ [] := by
  unfold escChar
  by_cases h1 : c = '&'
  · rw [if_pos h1]; decide
  rw [if_neg h1]
  by_cases h2 : c = '<'
  · rw [if_pos h2]; decide
  rw [if_neg h2]
  by_cases h3 : c = '>'
  · rw [if_pos h3]; decide
  rw [if_neg h3]
  simp

theorem escText_spec (s : Str) : ∀ c ∈ escText s, c ≠ '<' ∧ c ≠ '>' := by
  intro c h
  unfold escText at h
  obtain ⟨l, hl, hc⟩ := List.mem_flatten.mp h
  obtain ⟨c0, _, rfl⟩ := List.mem_map.mp hl
  exact escChar_spec c0 c hc

theorem escText_ne_nil {s : Str} (h : s ≠ []) : escText s ≠ [] := by
  rcases s with _ | ⟨c, cs⟩
  · exact absurd rfl h
  · unfold escText
    simp only [List.map_cons, List.flatten_cons]
    intro hcon
    exact escChar_ne_nil c (List.append_eq_nil.mp hcon).1

theorem escAttrChar_spec (c : Char) : ∀ c' ∈ escAttrChar c, c' ≠ '>' ∧ c' ≠ '"' := by
  unfold escAttrChar
  by_cases h1 : c = '&'
  · rw [if_pos h1]; decide
  rw [if_neg h1]
  by_cases h2 : c = '<'
  · rw [if_pos h2]; decide
  rw [if_neg h2]
  by_cases h3 : c = '>'
  · rw [if_pos h3]; decide
  rw [if_neg h3]
  by_cases h4 : c = '"'
  · rw [if_pos h4]; decide
  rw [if_neg h4]
  intro c' h
  have hc : c' = c := List.mem_singleton.mp h
  subst hc
  exact ⟨h3, h4⟩

theorem escAttr_spec (s : Str) : ∀ c ∈ escAttr s, c ≠ '>' ∧ c ≠ '"' := by
  intro c h
  unfold escAttr at h
  obtain ⟨l, hl, hc⟩ := List.mem_flatten.mp h
  obtain ⟨c0, _, rfl⟩ := List.mem_map.mp hl
  exact escAttrChar_spec c0 c hc

theorem attrStr_no_gt (kv : Str × Str) (hk : ∀ c ∈ kv.1, (c == '>') = false) :
    ∀ c ∈ attrStr kv, c ≠ '>' := by
  intro c h
  unfold attrStr at h
  rcases List.mem_cons.mp h with rfl | h
  · decide
  rcases List.mem_append.mp h with h | h
  · have := hk c h
    simpa using this
  rcases List.mem_cons.mp h with rfl | h
  · decide
  rcases List.mem_cons.mp h with rfl | h
  · decide
  rcases List.mem_append.mp h with h | h
  · exact (escAttr_spec kv.2 c h).1
  · rcases List.mem_cons.mp h with rfl | h
    · decide
    · cases h

theorem attrsStr_no_gt (a : List (Str × Str))
    (ha : ∀ kv ∈ a, ∀ c ∈ kv.1, (c == '>') = false) :
    ∀ c ∈ attrsStr a, c ≠ '>' := by
  intro c h
  unfold attrsStr at h
  obtain ⟨l, hl, hc⟩ := List.mem_flatten.mp h
  obtain ⟨kv, hkv, rfl⟩ := List.mem_map.mp hl
  exact attrStr_no_gt kv (ha kv hkv) c hc

theorem attrsStr_shape (a : List (Str × Str)) :
    attrsStr a = [] ∨ ∃ tl, attrsStr a = ' ' :: tl := by
  rcases a with _ | ⟨kv, rest⟩
  · exact Or.inl rfl
  · right
    exact ⟨_, rfl⟩

theorem takeWhile_all {α : Type} {p : α → Bool} (l : List α) (h : ∀ c ∈ l, p c = true) :
    l.takeWhile p = l := by
  induction l with
  | nil => rfl
  | cons a l ih =>
    rw [List.takeWhile_cons, if_pos (h a (by simp)), ih (fun c hc => h c (by simp [hc]))]

theorem goodName_spec {n : Str} (h : goodName n = true) :
    n ≠ [] ∧ ∀ c ∈ n, c ≠ '<' ∧ c ≠ '>' ∧ c ≠ '/' ∧ c ≠ '?' ∧ c ≠ ' ' := by
  unfold goodName at h
  rw [Bool.and_eq_true, List.all_eq_true] at h
  refine ⟨by simpa using h.1, fun c hc => ?_⟩
  have := h.2 c hc
  simp only [Bool.not_eq_true', Bool.or_eq_false_iff, beq_eq_false_iff_ne] at this
  tauto

theorem attrStr_getLast (kv : Str × Str) : (attrStr kv).getLast? = some '"' := by
  rw [show attrStr kv = (' ' :: (kv.1 ++ '=' :: '"' :: escAttr kv.2)) ++ ['"'] from by
    simp [attrStr]]
  rw [List.getLast?_concat]

theorem attrsStr_getLast {a : List (Str × Str)} (h : a ≠ []) :
    (attrsStr a).getLast? = some '"' := by
  induction a with
  | nil => exact absurd rfl h
  | cons kv rest ih =>
    rcases rest with _ | ⟨kv', rest'⟩
    · show (attrStr kv ++ [].flatten).getLast? = some '"'
      simp only [List.flatten_nil, List.append_nil]
      exact attrStr_getLast kv
    · show (attrStr kv ++ attrsStr (kv' :: rest')).getLast? = some '"'
      rw [List.getLast?_append_of_ne_nil]
      · exact ih (by simp)
      · show ' ' :: _ ≠ []
        simp

theorem tagName_of_good (n : Str) (a : List (Str × Str)) (hn : goodName n = true) :
    tagName (n ++ attrsStr a) = n := by
  obtain ⟨hne, hchars⟩ := goodName_spec hn
  have hpass : ∀ c ∈ n, (!(c == ' ' || c == '/')) = true := by
    intro c hc
    have := hchars c hc
    simp only [Bool.not_eq_true', Bool.or_eq_false_iff, beq_eq_false_iff_ne]
    tauto
  rcases attrsStr_shape a with h | ⟨tl, h⟩
  · rw [h, List.append_nil]
    exact takeWhile_all n hpass
  · rw [h]
    exact (takeWhile_append_cons n ' ' tl hpass (by decide)).1

theorem body_no_gt (n : Str) (a : List (Str × Str)) (hn : goodName n = true)
    (ha : ∀ kv ∈ a, ∀ c ∈ kv.1, (c == '>') = false) :
    ∀ c ∈ n ++ attrsStr a, (c != '>') = true := by
  intro c hc
  rcases List.mem_append.mp hc with h | h
  · have := (goodName_spec hn).2 c h
    simp only [bne_iff_ne, ne_eq]
    tauto
  · have := attrsStr_no_gt a ha c h
    simpa using this

theorem lexTag_open (n : Str) (a : List (Str × Str)) (rest : Str)
    (hn : goodName n = true)
    (ha : ∀ kv ∈ a, ∀ c ∈ kv.1, (c == '>') = false) :
    lexTag (n ++ attrsStr a ++ '>' :: rest) = some (.openT n, rest) := by
  obtain ⟨hne, hchars⟩ := goodName_spec hn
  rcases hcons : n with _ | ⟨c, n'⟩
  · exact absurd hcons hne
  subst hcons
  have hc := hchars c (by simp)
  have hsplit := takeWhile_append_cons (p := fun x => x != '>') ((c :: n') ++ attrsStr a) '>'
    rest (body_no_gt (c :: n') a hn ha) (by decide)
  rw [show (c :: n') ++ attrsStr a ++ '>' :: rest = c :: (n' ++ attrsStr a ++ '>' :: rest)
    from by simp]
  rw [lexTag]
  rw [if_neg (by tauto), if_neg (by tauto)]
  rw [show c :: (n' ++ attrsStr a ++ '>' :: rest) = ((c :: n') ++ attrsStr a) ++ '>' :: rest
    from by simp]
  rw [hsplit.2, hsplit.1]
  have hbody : ((c :: n') ++ attrsStr a).isEmpty = false := rfl
  have hlast : ¬ ((c :: n') ++ attrsStr a).getLast? = some '/' := by
    rcases attrsStr_shape a with h | ⟨tl, h⟩
    · rw [h, List.append_nil]
      intro hcon
      obtain ⟨hne2, heq⟩ := List.mem_getLast?_eq_getLast (Option.mem_def.mpr hcon)
      have hmem : '/' ∈ c :: n' := heq ▸ List.getLast_mem hne2
      exact (hchars '/' hmem).2.2.1 rfl
    · have hane : a ≠ [] := by
        rintro rfl
        simp [attrsStr] at h
      rw [List.getLast?_append_of_ne_nil _ (by rw [h]; simp)]
      rw [attrsStr_getLast hane]
      simp
  simp only [hbody, Bool.false_eq_true, if_false, hlast, tagName_of_good (c :: n') a hn]

theorem lexTag_self (n : Str) (a : List (Str × Str)) (rest : Str)
    (hn : goodName n = true)
    (ha : ∀ kv ∈ a, ∀ c ∈ kv.1, (c == '>') = false) :
    lexTag (n ++ attrsStr a ++ '/' :: '>' :: rest) = some (.selfT n, rest) := by
  obtain ⟨hne, hchars⟩ := goodName_spec hn
  rcases hcons : n with _ | ⟨c, n'⟩
  · exact absurd hcons hne
  subst hcons
  have hc := hchars c (by simp)
  have hall : ∀ x ∈ ((c :: n') ++ attrsStr a) ++ ['/'], (x != '>') = true := by
    intro x hx
    rcases List.mem_append.mp hx with h | h
    · exact body_no_gt (c :: n') a hn ha x h
    · rcases List.mem_singleton.mp h with rfl
      decide
  have hsplit := takeWhile_append_cons (p := fun x => x != '>')
    (((c :: n') ++ attrsStr a) ++ ['/']) '>' rest hall (by decide)
  rw [show (c :: n') ++ attrsStr a ++ '/' :: '>' :: rest
    = c :: (n' ++ attrsStr a ++ '/' :: '>' :: rest) from by simp]
  rw [lexTag]
  rw [if_neg (by tauto), if_neg (by tauto)]
  rw [show c :: (n' ++ attrsStr a ++ '/' :: '>' :: rest)
    = (((c :: n') ++ attrsStr a) ++ ['/']) ++ '>' :: rest from by simp]
  rw [hsplit.2, hsplit.1]
  have hbody : ((((c :: n') ++ attrsStr a) ++ ['/'])).isEmpty = false := by
    simp [List.isEmpty_iff]
  simp only [hbody, Bool.false_eq_true, if_false, List.getLast?_concat, List.dropLast_concat,
    tagName_of_good (c :: n') a hn]
  simp

theorem lexTag_close (n : Str) (rest : Str) (hn : goodName n = true) :
    lexTag ('/' :: (n ++ '>' :: rest)) = some (.closeT n, rest) := by
  have hall : ∀ x ∈ n, (x != '>') = true := by
    intro x hx
    have := (goodName_spec hn).2 x hx
    simp only [bne_iff_ne, ne_eq]
    tauto
  have hsplit := takeWhile_append_cons (p := fun x => x != '>') n '>' rest hall (by decide)
  rw [lexTag]
  rw [if_neg (by decide), if_pos rfl]
  rw [hsplit.2, hsplit.1]
  rfl

theorem lexAllF_tag (f : ℕ) (Y rest : Str) (tok : Tok) (ts : List Tok)
    (hY : lexTag Y = some (tok, rest)) (h : lexAllF f rest = some ts) :
    lexAllF (f + 1) ('<' :: Y) = some (tok :: ts) := by
  rw [lexAllF]
  rw [if_pos rfl, hY]
  show Option.map (fun ts => tok :: ts) (lexAllF f rest) = some (tok :: ts)
  rw [h]
  rfl

theorem lexAllF_text (f : ℕ) (txt X : Str) (ts : List Tok)
    (htxt : txt ≠ []) (hlt : ∀ c ∈ txt, c ≠ '<')
    (h : lexAllF f ('<' :: X) = some ts) :
    lexAllF (f + 1) (txt ++ '<' :: X) = some (.textT txt :: ts) := by
  rcases txt with _ | ⟨c, txt'⟩
  · exact absurd rfl htxt
  have hc : c ≠ '<' := hlt c (by simp)
  have hall : ∀ x ∈ c :: txt', (x != '<') = true := by
    intro x hx
    simpa using hlt x hx
  have hsplit := takeWhile_append_cons (p := fun x => x != '<') (c :: txt') '<' X hall
    (by decide)
  rw [show (c :: txt') ++ '<' :: X = c :: (txt' ++ '<' :: X) from by simp]
  rw [lexAllF]
  rw [if_neg hc]
  rw [show c :: (txt' ++ '<' :: X) = (c :: txt') ++ '<' :: X from by simp]
  rw [hsplit.1, hsplit.2, h]
  rfl

theorem serializeE_starts (e : XElem) : ∃ tl, serializeE e = '<' :: tl := by
  rcases e with ⟨n, a, t, ch⟩
  rw [serializeE_def]
  by_cases h : (t.isNone && ch.isEmpty) = true
  · rw [if_pos h]
    exact ⟨_, rfl⟩
  · rw [if_neg h]
    refine ⟨(n ++ attrsStr a ++ ['>']) ++ escText (t.getD [])
      ++ (ch.map serializeE).flatten ++ ('<' :: '/' :: (n ++ ['>'])), ?_⟩
    simp

theorem lex_serializeL (ch : List XElem)
    (hstep : ∀ c ∈ ch, goodE c = true → ∀ f rest ts, lexAllF f rest = some ts →
      lexAllF (f + (toksE c).length) (serializeE c ++ rest) = some (toksE c ++ ts))
    (hall : ∀ c ∈ ch, goodE c = true) :
    ∀ (f : ℕ) (rest : Str) (ts : List Tok), lexAllF f rest = some ts →
      lexAllF (f + ((ch.map (fun c => (toksE c).length)).sum))
          ((ch.map serializeE).flatten ++ rest)
        = some ((ch.map toksE).flatten ++ ts) := by
  induction ch with
  | nil =>
    intro f rest ts h
    simpa using h
  | cons c cs ih =>
    intro f rest ts h
    have h1 := ih (fun c' hc' => hstep c' (by simp [hc']))
      (fun c' hc' => hall c' (by simp [hc'])) f rest ts h
    have h2 := hstep c (by simp) (hall c (by simp)) _ _ _ h1
    have hfuel : f + ((List.map (fun c => (toksE c).length) (c :: cs)).sum)
        = (f + ((cs.map (fun c => (toksE c).length)).sum)) + (toksE c).length := by
      simp only [List.map_cons, List.sum_cons]
      omega
    rw [hfuel]
    simp only [List.map_cons, List.flatten_cons]
    rw [List.append_assoc]
    rw [show (toksE c ++ (cs.map toksE).flatten) ++ ts
      = toksE c ++ ((cs.map toksE).flatten ++ ts) from by simp]
    exact h2

theorem lex_serializeE (e : XElem) :
    goodE e = true → ∀ (f : ℕ) (rest : Str) (ts : List Tok), lexAllF f rest = some ts →
      lexAllF (f + (toksE e).length) (serializeE e ++ rest) = some (toksE e ++ ts) := by
  refine XElem.strongInd (fun e => goodE e = true → ∀ f rest ts, lexAllF f rest = some ts →
    lexAllF (f + (toksE e).length) (serializeE e ++ rest) = some (toksE e ++ ts)) ?_ e
  intro n a t ch ih hgood f rest ts h
  rw [goodE_def, Bool.and_eq_true, Bool.and_eq_true] at hgood
  obtain ⟨⟨hname, hattrs⟩, hch⟩ := hgood
  have hattrs' : ∀ kv ∈ a, ∀ c ∈ kv.1, (c == '>') = false := by
    rw [List.all_eq_true] at hattrs
    intro kv hkv
    have h2 := hattrs kv hkv
    rw [List.all_eq_true] at h2
    intro c hc
    simpa using h2 c hc
  have hch' : ∀ c ∈ ch, goodE c = true := List.all_eq_true.mp hch
  rw [serializeE_def, toksE_def]
  by_cases hsc : (t.isNone && ch.isEmpty) = true
  · rw [if_pos hsc, if_pos hsc]
    have harr : ('<' :: (n ++ attrsStr a ++ strL "/>")) ++ rest
        = '<' :: (n ++ attrsStr a ++ '/' :: '>' :: rest) := by
      simp [strL]
    rw [harr, show ([Tok.selfT n] : List Tok).length = 1 from rfl]
    exact lexAllF_tag f _ rest _ ts (lexTag_self n a rest hname hattrs') h
  · rw [if_neg hsc, if_neg hsc]
    have hclose : lexAllF (f + 1) (('<' :: '/' :: (n ++ ['>'])) ++ rest)
        = some (Tok.closeT n :: ts) := by
      have harr : ('<' :: '/' :: (n ++ ['>'])) ++ rest = '<' :: ('/' :: (n ++ '>' :: rest)) := by
        simp
      rw [harr]
      exact lexAllF_tag f _ rest _ ts (lexTag_close n rest hname) h
    have hkid := lex_serializeL ch (fun c hc => ih c hc) hch' (f + 1)
      (('<' :: '/' :: (n ++ ['>'])) ++ rest) (Tok.closeT n :: ts) hclose
    by_cases htxt : escText (t.getD []) = []
    · -- no text token
      have htoks : textToks t = [] := by
        rw [textToks, if_pos htxt]
      rw [htoks]
      have hopen := lexAllF_tag ((f + 1) + ((ch.map (fun c => (toksE c).length)).sum))
        (n ++ attrsStr a ++ '>' :: ((ch.map serializeE).flatten
          ++ (('<' :: '/' :: (n ++ ['>'])) ++ rest)))
        ((ch.map serializeE).flatten ++ (('<' :: '/' :: (n ++ ['>'])) ++ rest))
        (Tok.openT n) ((ch.map toksE).flatten ++ Tok.closeT n :: ts)
        (lexTag_open n a _ hname hattrs') hkid
      have hcomp : List.map (List.length ∘ toksE) ch
          = List.map (fun c => (toksE c).length) ch :=
        List.map_congr_left (fun c _ => rfl)
      have hfuel : f + (Tok.openT n :: (([] : List Tok) ++ (ch.map toksE).flatten)
          ++ [Tok.closeT n]).length
          = ((f + 1) + ((ch.map (fun c => (toksE c).length)).sum)) + 1 := by
        simp only [List.nil_append, List.length_cons, List.length_append, List.length_flatten,
          List.map_map, List.length_nil]
        rw [hcomp]
        omega
      rw [hfuel]
      rw [show (('<' :: (n ++ attrsStr a ++ ['>'])) ++ escText (t.getD [])
          ++ (ch.map serializeE).flatten ++ ('<' :: '/' :: (n ++ ['>']))) ++ rest
        = '<' :: (n ++ attrsStr a ++ '>' :: ((ch.map serializeE).flatten
          ++ (('<' :: '/' :: (n ++ ['>'])) ++ rest))) from by simp [htxt]]
      rw [show (Tok.openT n :: (([] : List Tok) ++ (ch.map toksE).flatten) ++ [Tok.closeT n]) ++ ts
        = Tok.openT n :: ((ch.map toksE).flatten ++ Tok.closeT n :: ts) from by simp]
      exact hopen
    · -- with a text token
      have htoks : textToks t = [Tok.textT (escText (t.getD []))] := by
        rw [textToks, if_neg htxt]
      rw [htoks]
      obtain ⟨Z, hZ⟩ : ∃ Z, (ch.map serializeE).flatten ++ (('<' :: '/' :: (n ++ ['>'])) ++ rest)
          = '<' :: Z := by
        rcases ch with _ | ⟨c0, cs⟩
        · exact ⟨'/' :: (n ++ '>' :: rest), by simp⟩
        · obtain ⟨tl, htl⟩ := serializeE_starts c0
          refine ⟨tl ++ ((cs.map serializeE).flatten
            ++ (('<' :: '/' :: (n ++ ['>'])) ++ rest)), ?_⟩
          simp [htl]
      have htext := lexAllF_text ((f + 1) + ((ch.map (fun c => (toksE c).length)).sum))
        (escText (t.getD [])) Z ((ch.map toksE).flatten ++ Tok.closeT n :: ts) htxt
        (fun c hc => (escText_spec _ c hc).1) (by rw [← hZ]; exact hkid)
      rw [← hZ] at htext
      have hopen := lexAllF_tag (((f + 1) + ((ch.map (fun c => (toksE c).length)).sum)) + 1)
        (n ++ attrsStr a ++ '>' :: (escText (t.getD []) ++ ((ch.map serializeE).flatten
          ++ (('<' :: '/' :: (n ++ ['>'])) ++ rest))))
        (escText (t.getD []) ++ ((ch.map serializeE).flatten
          ++ (('<' :: '/' :: (n ++ ['>'])) ++ rest)))
        (Tok.openT n)
        (Tok.textT (escText (t.getD [])) :: ((ch.map toksE).flatten ++ Tok.closeT n :: ts))
        (lexTag_open n a _ hname hattrs') htext
      have hcomp : List.map (List.length ∘ toksE) ch
          = List.map (fun c => (toksE c).length) ch :=
        List.map_congr_left (fun c _ => rfl)
      have hfuel : f + (Tok.openT n :: ([Tok.textT (escText (t.getD []))]
          ++ (ch.map toksE).flatten) ++ [Tok.closeT n]).length
          = (((f + 1) + ((ch.map (fun c => (toksE c).length)).sum)) + 1) + 1 := by
        simp only [List.singleton_append, List.length_cons, List.length_append,
          List.length_flatten, List.map_map, List.length_nil]
        rw [hcomp]
        omega
      rw [hfuel]
      rw [show (('<' :: (n ++ attrsStr a ++ ['>'])) ++ escText (t.getD [])
          ++ (ch.map serializeE).flatten ++ ('<' :: '/' :: (n ++ ['>']))) ++ rest
        = '<' :: (n ++ attrsStr a ++ '>' :: (escText (t.getD [])
          ++ ((ch.map serializeE).flatten ++ (('<' :: '/' :: (n ++ ['>'])) ++ rest))))
        from by simp]
      rw [show (Tok.openT n :: ([Tok.textT (escText (t.getD []))] ++ (ch.map toksE).flatten)
          ++ [Tok.closeT n]) ++ ts
        = Tok.openT n :: (Tok.textT (escText (t.getD []))
          :: ((ch.map toksE).flatten ++ Tok.closeT n :: ts)) from by simp]
      exact hopen

theorem chk_toksL (ch : List XElem)
    (hstep : ∀ c ∈ ch, ∀ ts st, chkToks (toksE c ++ ts) st = chkToks ts st) :
    ∀ ts st, chkToks ((ch.map toksE).flatten ++ ts) st = chkToks ts st := by
  induction ch with
  | nil => intro ts st; rfl
  | cons c cs ih =>
    intro ts st
    rw [List.map_cons, List.flatten_cons, List.append_assoc]
    rw [hstep c (by simp) _ st]
    exact ih (fun c' hc' ts' st' => hstep c' (by simp [hc']) ts' st') ts st

theorem chk_toksE (e : XElem) : ∀ ts st, chkToks (toksE e ++ ts) st = chkToks ts st := by
  refine XElem.strongInd (fun e => ∀ ts st, chkToks (toksE e ++ ts) st = chkToks ts st) ?_ e
  intro n a t ch ih ts st
  rw [toksE_def]
  by_cases hsc : (t.isNone && ch.isEmpty) = true
  · rw [if_pos hsc]
    rfl
  · rw [if_neg hsc]
    rw [show (Tok.openT n :: (textToks t ++ (ch.map toksE).flatten) ++ [Tok.closeT n]) ++ ts
      = Tok.openT n :: (textToks t ++ ((ch.map toksE).flatten ++ (Tok.closeT n :: ts)))
      from by simp]
    rw [show chkToks (Tok.openT n :: (textToks t ++ ((ch.map toksE).flatten
        ++ (Tok.closeT n :: ts)))) st
      = chkToks (textToks t ++ ((ch.map toksE).flatten ++ (Tok.closeT n :: ts))) (n :: st)
      from rfl]
    have htt : ∀ (ts' : List Tok) (st' : List Str),
        chkToks (textToks t ++ ts') st' = chkToks ts' st' := by
      intro ts' st'
      unfold textToks
      by_cases h : escText (t.getD []) = []
      · rw [if_pos h]
        rfl
      · rw [if_neg h]
        rfl
    rw [htt, chk_toksL ch ih]
    show ((n == n) && chkToks ts st) = chkToks ts st
    simp

theorem toksE_len_le (e : XElem) : (toksE e).length ≤ (serializeE e).length := by
  refine XElem.strongInd (fun e => (toksE e).length ≤ (serializeE e).length) ?_ e
  intro n a t ch ih
  rw [toksE_def, serializeE_def]
  by_cases hsc : (t.isNone && ch.isEmpty) = true
  · rw [if_pos hsc, if_pos hsc]
    simp
  · rw [if_neg hsc, if_neg hsc]
    have hsum : ((ch.map toksE).flatten).length ≤ ((ch.map serializeE).flatten).length := by
      have h1 : ch.map (List.length ∘ toksE) = ch.map (fun c => (toksE c).length) :=
        List.map_congr_left (fun c _ => rfl)
      have h2 : ch.map (List.length ∘ serializeE) = ch.map (fun c => (serializeE c).length) :=
        List.map_congr_left (fun c _ => rfl)
      rw [List.length_flatten, List.length_flatten, List.map_map, List.map_map, h1, h2]
      exact List.sum_le_sum (fun c hc => ih c hc)
    have htt : (textToks t).length ≤ (escText (t.getD [])).length := by
      unfold textToks
      by_cases h : escText (t.getD []) = []
      · rw [if_pos h]
        simp
      · rw [if_neg h]
        have : escText (t.getD []) ≠ [] := h
        rcases hx : escText (t.getD []) with _ | ⟨c, cs⟩
        · exact absurd hx this
        · simp
    simp only [List.length_append, List.length_cons, List.length_nil]
    omega

theorem lexAllF_mono : ∀ (f f' : ℕ) (s : Str) (ts : List Tok),
    lexAllF f s = some ts → f ≤ f' → lexAllF f' s = some ts := by
  intro f
  induction f with
  | zero =>
    intro f' s ts h
    rw [show lexAllF 0 s = none from rfl] at h
    cases h
  | succ f ih =>
    intro f' s ts h hle
    rcases f' with _ | f'
    · omega
    rcases s with _ | ⟨c, s'⟩
    · rw [lexAllF] at h ⊢
      exact h
    · rw [lexAllF] at h ⊢
      by_cases hc : c = '<'
      · rw [if_pos hc] at h ⊢
        rcases hlt : lexTag s' with _ | ⟨tok, tail⟩
        · simp only [hlt] at h
          cases h
        · simp only [hlt] at h
          obtain ⟨ts', hts', rfl⟩ := Option.map_eq_some'.mp h
          show Option.map (fun ts => tok :: ts) (lexAllF f' tail) = _
          rw [ih f' tail ts' hts' (by omega)]
          rfl
      · rw [if_neg hc] at h ⊢
        obtain ⟨ts', hts', rfl⟩ := Option.map_eq_some'.mp h
        rw [ih f' _ ts' hts' (by omega)]
        rfl

theorem lexTag_prolog (X : Str) :
    lexTag ('?' :: (strL "xml version=\"1.0\" encoding=\"UTF-8\"?" ++ '>' :: X))
      = some (.declT, X) := by
  have hall : ∀ x ∈ strL "xml version=\"1.0\" encoding=\"UTF-8\"?", (x != '>') = true := by
    decide
  have hsplit := takeWhile_append_cons (p := fun x => x != '>')
    (strL "xml version=\"1.0\" encoding=\"UTF-8\"?") '>' X hall (by decide)
  rw [lexTag]
  rw [if_pos rfl]
  rw [hsplit.2, hsplit.1]
  rfl

/-- Lexing the whole emitted document: a declaration token, the newline text
    run, then the tokens of the serialized root. -/
theorem lexAllF_document (root : XElem) (hg : goodE root = true) :
    lexAllF ((toksE root).length + 3) (xmlProlog ++ serializeE root)
      = some (.declT :: .textT ['\n'] :: toksE root) := by
  have h0 : lexAllF 1 [] = some [] := rfl
  have h1 := lex_serializeE root hg 1 [] [] h0
  rw [List.append_nil, List.append_nil] at h1
  obtain ⟨tl, htl⟩ := serializeE_starts root
  rw [htl] at h1
  have h2 := lexAllF_text (1 + (toksE root).length) ['\n'] tl (toksE root)
    (by decide) (by decide) h1
  rw [List.singleton_append, ← htl] at h2
  have h3 := lexTag_prolog ('\n' :: serializeE root)
  have h4 := lexAllF_tag ((1 + (toksE root).length) + 1) _ _ _ _ h3 h2
  have hshape : xmlProlog ++ serializeE root
      = '<' :: ('?' :: (strL "xml version=\"1.0\" encoding=\"UTF-8\"?"
          ++ '>' :: ('\n' :: serializeE root))) := rfl
  rw [← hshape] at h4
  rw [show (toksE root).length + 3 = ((1 + (toksE root).length) + 1) + 1 from by omega]
  exact h4

/-- The document a good element serializes to is well-formed. -/
theorem wellFormed_document (root : XElem) (hg : goodE root = true) :
    wellFormedXml (xmlProlog ++ serializeE root) = true := by
  have h4 := lexAllF_document root hg
  have hlen : (toksE root).length + 3 ≤ (xmlProlog ++ serializeE root).length + 1 := by
    have h := toksE_len_le root
    rw [List.length_append]
    have hp : 2 ≤ xmlProlog.length := by decide
    omega
  have h5 := lexAllF_mono _ _ _ _ h4 hlen
  unfold wellFormedXml
  rw [h5]
  show chkToks (Tok.declT :: Tok.textT ['\n'] :: toksE root) [] = true
  show chkToks (toksE root) [] = true
  have h6 := chk_toksE root [] []
  rw [List.append_nil] at h6
  rw [h6]
  rfl

/-- A pattern occurring as a contiguous substring is found by `containsSub`. -/
theorem containsSub_of_infix : ∀ (s pat : Str), pat <:+: s → containsSub pat s = true := by
  intro s
  induction s with
  | nil =>
    intro pat h
    rw [List.infix_nil] at h
    subst h
    rfl
  | cons c rest ih =>
    intro pat h
    rw [containsSub]
    rcases List.infix_cons_iff.mp h with hp | hi
    · rw [List.isPrefixOf_iff_prefix.mpr hp]
      rfl
    · rw [ih pat hi]
      simp

/-- An element's tag name occurs in its serialization. -/
theorem name_infix_serializeE (n : Str) (a : List (Str × Str)) (t : Option Str)
    (ch : List XElem) : n <:+: serializeE (.mk n a t ch) := by
  rw [serializeE_def]
  by_cases h : (t.isNone && ch.isEmpty) = true
  · rw [if_pos h]
    exact ⟨['<'], attrsStr a ++ strL "/>", by simp⟩
  · rw [if_neg h]
    refine ⟨['<'], attrsStr a ++ ['>'] ++ (escText (t.getD [])
      ++ ((ch.map serializeE).flatten ++ ('<' :: '/' :: (n ++ ['>'])))), ?_⟩
    simp

/-- A child's serialization occurs in its parent's serialization. -/
theorem child_infix_serializeE (c : XElem) (n : Str) (a : List (Str × Str))
    (t : Option Str) (ch : List XElem) (hc : c ∈ ch) :
    serializeE c <:+: serializeE (.mk n a t ch) := by
  have hne : ch.isEmpty = false := by
    cases ch with
    | nil => cases hc
    | cons x xs => rfl
  rw [serializeE_def, if_neg (by simp [hne])]
  have h1 : serializeE c <:+: (ch.map serializeE).flatten :=
    List.infix_of_mem_flatten (List.mem_map_of_mem serializeE hc)
  obtain ⟨s, t', hst⟩ := h1
  refine ⟨('<' :: (n ++ attrsStr a ++ ['>'])) ++ escText (t.getD []) ++ s,
    t' ++ ('<' :: '/' :: (n ++ ['>'])), ?_⟩
  rw [← hst]
  simp

theorem goodE_lineElem (idx : ℕ) (lf : LineFmt) : goodE (lineElem idx lf) = true := by
  simp only [lineElem, el, elT, elAT, goodE_def, List.all_cons, List.all_nil]
  decide

theorem goodE_taxBlockElem (g : ℚ × ℚ × ℚ) : goodE (taxBlockElem g) = true := by
  simp only [taxBlockElem, el, elT, goodE_def, List.all_cons, List.all_nil]
  decide

theorem goodE_contextElem : goodE contextElem = true := by
  simp only [contextElem, el, elT, goodE_def, List.all_cons, List.all_nil]
  decide

theorem goodE_documentElem (d : InvoiceData) : goodE (documentElem d) = true := by
  simp only [documentElem, el, elT, elAT, goodE_def, List.all_cons, List.all_nil]
  decide

theorem goodE_agreementElem (d : InvoiceData) (vat : Str) :
    goodE (agreementElem d vat) = true := by
  simp only [agreementElem, el, elT, elAT, goodE_def, List.all_cons, List.all_nil]
  decide

theorem goodE_monetaryElem (d : InvoiceData) (ttcS : Str) :
    goodE (monetaryElem d ttcS) = true := by
  simp only [monetaryElem, el, elT, elAT, goodE_def, List.all_cons, List.all_nil]
  decide

theorem goodE_settlementElem (d : InvoiceData) (groups : List (ℚ × ℚ × ℚ)) (ttcS : Str) :
    goodE (settlementElem d groups ttcS) = true := by
  have hg : (groups.map taxBlockElem).all goodE = true := by
    rw [List.all_eq_true]
    intro x hx
    obtain ⟨g, _, rfl⟩ := List.mem_map.mp hx
    exact goodE_taxBlockElem g
  rw [settlementElem, el, goodE_def]
  rw [List.all_append, List.all_append]
  simp only [List.all_cons, List.all_nil, hg, goodE_monetaryElem, el, elT, goodE_def]
  decide

theorem goodE_transactionElem (d : InvoiceData) (lines : List XElem) (vat : Str)
    (groups : List (ℚ × ℚ × ℚ)) (ttcS : Str) (hl : lines.all goodE = true) :
    goodE (transactionElem d lines vat groups ttcS) = true := by
  rw [transactionElem, el, goodE_def, List.all_append]
  simp only [List.all_cons, List.all_nil, hl, goodE_agreementElem, goodE_settlementElem,
    el, goodE_def]
  decide

theorem goodE_mkDoc (d : InvoiceData) (lines : List XElem) (vat : Str)
    (groups : List (ℚ × ℚ × ℚ)) (ttcS : Str) (hl : lines.all goodE = true) :
    goodE (mkDoc d lines vat groups ttcS) = true := by
  rw [mkDoc, goodE_def]
  simp only [List.all_cons, List.all_nil, goodE_contextElem, goodE_documentElem,
    goodE_transactionElem d lines vat groups ttcS hl]
  decide

theorem mkDoc_name_occurs (d : InvoiceData) (lines : List XElem) (vat : Str)
    (groups : List (ℚ × ℚ × ℚ)) (ttcS : Str) :
    strL "rsm:CrossIndustryInvoice" <:+: serializeE (mkDoc d lines vat groups ttcS) := by
  rw [mkDoc]
  exact name_infix_serializeE _ _ _ _

theorem mkDoc_child_occurs (d : InvoiceData) (lines : List XElem) (vat : Str)
    (groups : List (ℚ × ℚ × ℚ)) (ttcS : Str) (c : XElem)
    (hc : c ∈ [contextElem, documentElem d, transactionElem d lines vat groups ttcS]) :
    serializeE c <:+: serializeE (mkDoc d lines vat groups ttcS) := by
  rw [mkDoc]
  exact child_infix_serializeE c _ _ _ _ hc

/-- C8: for every record the validator accepts, whenever the generator
    produces an XML text, that text is well-formed and contains the four
    mandatory element names, so the structural check `_validate_xml`
    returns `True` on it. -/
theorem generated_xml_validates (d : InvoiceData)
    (hacc : validate_invoice_data d = Except.ok true)
    (s : Str) (hs : generate_facturx_xml d = some s) :
    validate_xml s = true := by
  rw [generate_facturx_xml] at hs
  obtain ⟨root, hroot, rfl⟩ := Option.map_eq_some'.mp hs
  obtain ⟨lfs, vat, groups, ttcS, _, _, _, _, hx⟩ := buildRoot_inv hroot
  subst hx
  have hl : ((List.enumFrom 1 lfs).map (fun p => lineElem p.1 p.2)).all goodE = true := by
    rw [List.all_eq_true]
    intro x hx
    obtain ⟨p, _, rfl⟩ := List.mem_map.mp hx
    exact goodE_lineElem p.1 p.2
  have hg := goodE_mkDoc d _ vat groups ttcS hl
  have hA : strL "CrossIndustryInvoice"
      <:+: serializeE (mkDoc d ((List.enumFrom 1 lfs).map (fun p => lineElem p.1 p.2))
        vat groups ttcS) :=
    (show strL "CrossIndustryInvoice" <:+: strL "rsm:CrossIndustryInvoice" from
      ⟨strL "rsm:", [], by decide⟩).trans (mkDoc_name_occurs d _ vat groups ttcS)
  have hB : strL "ExchangedDocumentContext"
      <:+: serializeE (mkDoc d ((List.enumFrom 1 lfs).map (fun p => lineElem p.1 p.2))
        vat groups ttcS) :=
    ((show strL "ExchangedDocumentContext" <:+: strL "rsm:ExchangedDocumentContext" from
      ⟨strL "rsm:", [], by decide⟩).trans
      (show strL "rsm:ExchangedDocumentContext" <:+: serializeE contextElem from by
        rw [contextElem, el]
        exact name_infix_serializeE _ _ _ _)).trans
      (mkDoc_child_occurs d _ vat groups ttcS contextElem (by simp))
  have hC : strL "ExchangedDocument"
      <:+: serializeE (mkDoc d ((List.enumFrom 1 lfs).map (fun p => lineElem p.1 p.2))
        vat groups ttcS) :=
    ((show strL "ExchangedDocument" <:+: strL "rsm:ExchangedDocument" from
      ⟨strL "rsm:", [], by decide⟩).trans
      (show strL "rsm:ExchangedDocument" <:+: serializeE (documentElem d) from by
        rw [documentElem, el]
        exact name_infix_serializeE _ _ _ _)).trans
      (mkDoc_child_occurs d _ vat groups ttcS (documentElem d) (by simp))
  have hD : strL "SupplyChainTradeTransaction"
      <:+: serializeE (mkDoc d ((List.enumFrom 1 lfs).map (fun p => lineElem p.1 p.2))
        vat groups ttcS) :=
    ((show strL "SupplyChainTradeTransaction" <:+: strL "rsm:SupplyChainTradeTransaction" from
      ⟨strL "rsm:", [], by decide⟩).trans
      (show strL "rsm:SupplyChainTradeTransaction"
          <:+: serializeE (transactionElem d ((List.enumFrom 1 lfs).map
            (fun p => lineElem p.1 p.2)) vat groups ttcS) from by
        rw [transactionElem, el]
        exact name_infix_serializeE _ _ _ _)).trans
      (mkDoc_child_occurs d _ vat groups ttcS _ (by simp))
  rw [validate_xml, if_pos (wellFormed_document _ hg)]
  rw [List.all_eq_true]
  intro e he
  have hlift : ∀ pat : Str,
      pat <:+: serializeE (mkDoc d ((List.enumFrom 1 lfs).map (fun p => lineElem p.1 p.2))
        vat groups ttcS) →
      containsSub pat (xmlProlog ++ serializeE (mkDoc d ((List.enumFrom 1 lfs).map
        (fun p => lineElem p.1 p.2)) vat groups ttcS)) = true :=
    fun pat h => containsSub_of_infix _ _ (h.trans ⟨xmlProlog, [], by simp⟩)
  rcases List.mem_cons.mp he with rfl | he
  · exact hlift _ hA
  rcases List.mem_cons.mp he with rfl | he
  · exact hlift _ hB
  rcases List.mem_cons.mp he with rfl | he
  · exact hlift _ hC
  rcases List.mem_cons.mp he with rfl | he
  · exact hlift _ hD
  cases he

/-- A concrete accepted record on which the generator runs end to end. -/
def w8Data : InvoiceData :=
  { date := strL "2024-03-01", invoice_number := strL "F-2024-008",
    issuer := { name := strL "ACME", address := strL "1 rue A", postal_code := strL "75001",
                city := strL "Paris", siret := none, vat_number := none },
    recipient := { name := strL "Client", address := strL "2 rue B", postal_code := strL "69001",
                   city := strL "Lyon", siret := none, vat_number := none },
    items := [{ description := strL "Prestation", quantity := some (.num 2),
                unit_price := some (.num 50), vat_rate := some (.num 20),
                amount_ht := 100, vat_amount := 20, amount_ttc := 120 }],
    total_ht := 100, total_vat := 20, total_ttc := .num 120 }

theorem generated_xml_validates_witness :
    validate_xml ((generate_facturx_xml w8Data).getD []) = true :=
  generated_xml_validates w8Data (by with_unfolding_all rfl) _ (by with_unfolding_all rfl)
